import Mathlib

/-!
Verification of the ScamBait honeypot core (src/src of the repository):
the regex-based intelligence extractor (src/src/intelligence.py), the
turn-aware scam detector and red-flag classifier (src/src/scam_detection.py),
the pattern library and static tables (src/src/config.py), the session /
response machinery (src/src/honeypot_agent.py) and the orchestrating
request handler (src/src/main.py).

Modelling conventions:
 * Python strings are modelled as `List Char` (`Str`).  All texts that the
   claims touch are ASCII, so `Char.toLower` models `str.casefold` and the
   ASCII character classes below model the `re` classes (`\d`, `\w`, `\s`).
 * The five compiled regular expressions of config.py are implemented as
   executable scanners (`findallUpi`, `findallPhone`, `findallUrl`,
   `findallBank`, `findallEmail`) that reproduce Python `re.findall`
   semantics for these particular patterns: left-to-right scanning,
   non-overlapping matches, alternation trying the left branch first,
   greedy quantifiers with backtracking.
 * The network callback (`httpx.post`) and the Groq LLM call are external
   collaborators; the handler records whether the callback collaborator was
   invoked (`callbackFired`) and takes the generator's raw output as an
   oracle (`Env.genReply`, `none` modelling unavailability or an exception
   raised by the API call).  `random.choice` over the suspicion replies is
   modelled by an oracle index.  Timestamps (`start_time`, `last_activity`,
   conversation-entry timestamps) are elided: no claim mentions them and no
   control flow depends on them.
-/

namespace HoneyPot

abbrev Str := List Char

def toL (s : String) : Str := s.toList

/-- Apostrophe character, used to build the trigger phrases that contain one. -/
def apos : Char := '\''

/-! ### Character classes (ASCII fragments of Python's `re` classes) -/

/-- Python `\s` (ASCII): space, tab, newline, carriage return, form feed, vertical tab. -/
def isWsC (c : Char) : Bool :=
  c == ' ' || c == '\t' || c == '\n' || c == '\r' || c == '\x0b' || c == '\x0c'

/-- Python `[0-9]` / `\d` (ASCII). -/
def isDigitC (c : Char) : Bool := c.isDigit

/-- Python `\w` (ASCII): letters, digits, underscore.  Determines `\b`. -/
def isWordC (c : Char) : Bool := c.isAlpha || c.isDigit || c == '_'

/-- The class `[\s-]` of the phone-separator and of `re.sub(r"[\s-]", ...)`. -/
def isSepC (c : Char) : Bool := isWsC c || c == '-'

/-- `str.casefold` / `str.lower` on the ASCII texts involved. -/
def lowerStr (s : Str) : Str := s.map Char.toLower

/-! ### Substring and stripping helpers (Python `in`, `strip`, `rstrip`) -/

def isPrefixL : Str → Str → Bool
  | [], _ => true
  | _ :: _, [] => false
  | a :: as, b :: bs => a == b && isPrefixL as bs

/-- `containsSub p s` models Python `p in s` (substring test). -/
def containsSub (p : Str) : Str → Bool
  | [] => isPrefixL p []
  | c :: t => isPrefixL p (c :: t) || containsSub p t

/-- Python `str.strip()` (whitespace from both ends). -/
def stripWs (l : Str) : Str :=
  ((l.dropWhile isWsC).reverse.dropWhile isWsC).reverse

/-- Python `re.sub(r"[\s-]", "", s)`. -/
def removeSep (l : Str) : Str := l.filter (fun c => !isSepC c)

/-- Python `re.sub(r"[^0-9]", "", s)`. -/
def digitsOf (l : Str) : Str := l.filter isDigitC

/-- Python `s[-10:]` (on `List`, `drop (length - 10)`; for short strings the
whole string, exactly as in Python). -/
def last10 (l : Str) : Str := l.drop (l.length - 10)

/-- The punctuation set of `match.rstrip(".,;:!?)")` in the URL step. -/
def isUrlPunctC (c : Char) : Bool :=
  c == '.' || c == ',' || c == ';' || c == ':' || c == '!' || c == '?' || c == ')'

/-- Python `str.rstrip(".,;:!?)")`. -/
def rstripPunct (l : Str) : Str := (l.reverse.dropWhile isUrlPunctC).reverse

/-! ### Position-indexed primitives over a fixed text -/

def digitAt (t : Str) (i : Nat) : Bool := (t.get? i).any isDigitC

def wordAt (t : Str) (i : Nat) : Bool := (t.get? i).any isWordC

def charIs (t : Str) (i : Nat) (c : Char) : Bool := t.get? i == some c

/-- Case-insensitive literal character (for the `re.IGNORECASE` URL pattern). -/
def charCIAt (t : Str) (i : Nat) (c : Char) : Bool :=
  (t.get? i).any (fun x => x.toLower == c)

/-- `n` consecutive digits starting at position `i` (`\d{n}`). -/
def digitsFrom (t : Str) (i n : Nat) : Bool :=
  (List.range n).all (fun k => digitAt t (i + k))

/-- `\b` just before a word character at position `i`. -/
def boundaryAt (t : Str) (i : Nat) : Bool :=
  i == 0 || !wordAt t (i - 1)

/-- Length of the leading run of class-`f` characters of a list. -/
def takeWhileLen (f : Char → Bool) : Str → Nat
  | [] => 0
  | c :: r => if f c then takeWhileLen f r + 1 else 0

/-- Length of the maximal run of class-`f` characters starting at `i`
(a greedy `[...]+` / `[...]*`). -/
def runLen (f : Char → Bool) (t : Str) (i : Nat) : Nat :=
  takeWhileLen f (t.drop i)

/-! ### The five compiled patterns of config.py as executable scanners

`COMPILED_PATTERNS` (src/src/config.py):
  "upi":          `[a-zA-Z0-9._-]+@[a-zA-Z]+`
  "phone":        `\+91[\s-]?\d{10}|\b\d{10}\b`
  "url":          `https?://[^\s]+|www\.[^\s]+`   (IGNORECASE)
  "bank_account": `\b\d{10,18}\b`
  "email":        `[a-zA-Z0-9._%+-]+@[a-zA-Z0-9.-]+\.[a-zA-Z]{2,}`

Each `tryX t i` returns the length of the match the pattern produces at
position `i` of `t` (or `none`), mirroring the backtracking behaviour of the
Python engine for that pattern; `scanG` then reproduces `re.findall`'s
left-to-right non-overlapping scan. -/

/-- `\+91[\s-]?\d{10}` at position `i`.  The optional separator is tried
greedily first; when it is absent the ten digits must follow `+91` directly. -/
def tryAlt1 (t : Str) (i : Nat) : Option Nat :=
  if charIs t i '+' && charIs t (i + 1) '9' && charIs t (i + 2) '1' then
    if (t.get? (i + 3)).any isSepC then
      if digitsFrom t (i + 4) 10 then some 14 else none
    else
      if digitsFrom t (i + 3) 10 then some 13 else none
  else none

/-- `\b\d{10}\b` at position `i`. -/
def tryAlt2 (t : Str) (i : Nat) : Option Nat :=
  if boundaryAt t i && digitsFrom t i 10 && !wordAt t (i + 10) then some 10 else none

/-- The phone pattern: alternation, left branch first. -/
def tryPhone (t : Str) (i : Nat) : Option Nat :=
  (tryAlt1 t i).or (tryAlt2 t i)

/-- `\b\d{10,18}\b` at position `i`: a greedy digit run of length 10–18 whose
two ends sit at word boundaries.  A maximal run longer than 18 can never
satisfy the trailing `\b` within the repetition bound, so it does not match —
exactly as in the Python engine. -/
def tryBank (t : Str) (i : Nat) : Option Nat :=
  let r := runLen isDigitC t i
  if boundaryAt t i && decide (10 ≤ r) && decide (r ≤ 18) && !wordAt t (i + r) then
    some r
  else none

def isUpiLocalC (c : Char) : Bool :=
  c.isAlpha || c.isDigit || c == '.' || c == '_' || c == '-'

/-- `[a-zA-Z0-9._-]+@[a-zA-Z]+` at position `i`.  `@` is not in the first
class, so the greedy first part is exactly the maximal class run, which must
be followed by `@` and at least one letter. -/
def tryUpi (t : Str) (i : Nat) : Option Nat :=
  let a := runLen isUpiLocalC t i
  if a == 0 then none
  else if charIs t (i + a) '@' then
    let b := runLen Char.isAlpha t (i + a + 1)
    if b == 0 then none else some (a + 1 + b)
  else none

def isEmailLocalC (c : Char) : Bool := isUpiLocalC c || c == '%' || c == '+'

def isEmailDomC (c : Char) : Bool := c.isAlpha || c.isDigit || c == '.' || c == '-'

/-- Backtracking search for the email pattern's `\.[a-zA-Z]{2,}` tail: the
greedy domain run gives characters back from the right until a dot followed
by at least two letters is found.  `k` counts candidate split positions from
`r - 1` down to `1`; returns the split and the greedy letter-run length. -/
def lastDotSplit (t : Str) (base : Nat) : Nat → Option (Nat × Nat)
  | 0 => none
  | k + 1 =>
    let L := runLen Char.isAlpha t (base + (k + 1) + 1)
    if charIs t (base + (k + 1)) '.' && decide (2 ≤ L) then some (k + 1, L)
    else lastDotSplit t base k

/-- `[a-zA-Z0-9._%+-]+@[a-zA-Z0-9.-]+\.[a-zA-Z]{2,}` at position `i`. -/
def tryEmail (t : Str) (i : Nat) : Option Nat :=
  let a := runLen isEmailLocalC t i
  if a == 0 then none
  else if charIs t (i + a) '@' then
    let r := runLen isEmailDomC t (i + a + 1)
    if r == 0 then none
    else
      match lastDotSplit t (i + a + 1) (r - 1) with
      | some (k, L) => some (a + 1 + k + 1 + L)
      | none => none
  else none

/-- `https?://[^\s]+|www\.[^\s]+` (IGNORECASE) at position `i`. -/
def tryUrl (t : Str) (i : Nat) : Option Nat :=
  if charCIAt t i 'h' && charCIAt t (i + 1) 't' && charCIAt t (i + 2) 't'
      && charCIAt t (i + 3) 'p' then
    if charCIAt t (i + 4) 's' && charIs t (i + 5) ':' && charIs t (i + 6) '/'
        && charIs t (i + 7) '/' then
      let n := runLen (fun c => !isWsC c) t (i + 8)
      if n == 0 then none else some (8 + n)
    else if charIs t (i + 4) ':' && charIs t (i + 5) '/' && charIs t (i + 6) '/' then
      let n := runLen (fun c => !isWsC c) t (i + 7)
      if n == 0 then none else some (7 + n)
    else none
  else if charCIAt t i 'w' && charCIAt t (i + 1) 'w' && charCIAt t (i + 2) 'w'
      && charIs t (i + 3) '.' then
    let n := runLen (fun c => !isWsC c) t (i + 4)
    if n == 0 then none else some (4 + n)
  else none

/-- `re.findall`'s driver, fuelled so that it computes by structural
recursion: try the pattern at position `i`, emit the match and resume after
it (all our patterns have positive length; `max l 1` guards progress for an
arbitrary `tf`).  The position advances by at least one per iteration, so
fuel `L - i` suffices and the fuel never runs out before `i` reaches `L`. -/
def scanGAux (tf : Nat → Option Nat) (L : Nat) : Nat → Nat → List (Nat × Nat)
  | 0, _ => []
  | fuel + 1, i =>
    if i < L then
      match tf i with
      | some l => (i, l) :: scanGAux tf L fuel (i + max l 1)
      | none => scanGAux tf L fuel (i + 1)
    else []

def scanG (tf : Nat → Option Nat) (L : Nat) (i : Nat) : List (Nat × Nat) :=
  scanGAux tf L (L - i) i

/-- The substring of `t` of length `n` starting at position `i`. -/
def sub (t : Str) (i n : Nat) : Str := (t.drop i).take n

def findallBy (tf : Nat → Option Nat) (t : Str) : List Str :=
  (scanG tf t.length 0).map (fun pl => sub t pl.1 pl.2)

def findallUpi (t : Str) : List Str := findallBy (tryUpi t) t
def findallPhone (t : Str) : List Str := findallBy (tryPhone t) t
def findallUrl (t : Str) : List Str := findallBy (tryUrl t) t
def findallBank (t : Str) : List Str := findallBy (tryBank t) t
def findallEmail (t : Str) : List Str := findallBy (tryEmail t) t

/-! ### Static tables of src/src/config.py -/

/-- `SCAM_KEYWORDS` of config.py, in source order. -/
def SCAM_KEYWORDS : List Str :=
  ([ "urgent", "blocked", "suspended", "verify", "otp", "kyc", "pan",
     "aadhaar", "account", "bank", "upi", "transfer", "payment",
     "immediately", "click", "link", "update", "expire", "freeze",
     "locked", "compromised", "share", "identity", "security",
     "prevent", "suspension", "digit", "minutes", "hours",
     "lottery", "prize", "winner", "won", "congratulations", "claim",
     "lakh", "crore", "rupees", "jackpot", "lucky", "draw",
     "police", "arrest", "court", "legal", "case", "crime", "fraud",
     "refund", "cashback", "reward", "bonus", "offer", "limited" ] : List String).map toL

/-- `RED_FLAG_CATEGORIES` of config.py: label and trigger phrases, in source
(dict-insertion) order.  The two triggers containing an apostrophe are built
with `apos`. -/
def RED_FLAG_CATEGORIES : List (String × List Str) :=
  [ ("Urgency / pressure tactics",
      ([ "urgent", "immediately", "act now", "expire", "last chance",
         "right now", "act fast", "hurry", "quick", "limited time",
         "within minutes", "within hours", "today only" ] : List String).map toL
        ++ [toL "don" ++ [apos] ++ toL "t delay"]
        ++ ([ "minutes", "hours", "seconds" ] : List String).map toL),
    ("Impersonation of authority / institution",
      ([ "bank", "rbi", "sbi", "government", "police", "court",
         "reserve bank", "income tax", "sebi", "customs", "telecom",
         "officer", "manager", "department", "ministry", "aadhaar" ] : List String).map toL),
    ("Request for money / financial transaction",
      ([ "send money", "transfer", "pay", "upi", "payment",
         "processing fee", "registration fee", "advance amount",
         "deposit", "invest", "amount", "rupees", "rs." ] : List String).map toL),
    ("Request for sensitive personal information",
      ([ "otp", "password", "pin", "cvv", "card number",
         "aadhaar", "pan", "kyc", "verify identity", "share details",
         "bank details", "account number", "login", "credentials" ] : List String).map toL),
    ("Too-good-to-be-true offer",
      ([ "lottery", "won", "prize", "congratulations", "winner",
         "guaranteed returns", "double", "triple", "jackpot",
         "lakh", "crore", "free", "lucky draw", "cashback", "reward" ] : List String).map toL),
    ("Threatening / fear-based language",
      ([ "arrest", "court", "legal action", "case filed", "jail",
         "warrant", "crime", "fraud", "suspend", "block", "freeze",
         "locked", "compromised", "terminate", "penalty", "fine" ] : List String).map toL),
    ("Contains suspicious links or redirects",
      ([ "http://", "https://", "www.", "click here", "click link",
         ".xyz", ".tk", ".ml", "bit.ly", "tinyurl" ] : List String).map toL),
    ("Upfront payment required before benefit",
      ([ "processing fee", "registration fee", "tax amount",
         "claim charge", "advance", "fee before", "pay to receive",
         "pay first", "token amount" ] : List String).map toL),
    ("Request for secrecy",
      [toL "don" ++ [apos] ++ toL "t tell"]
        ++ ([ "keep secret", "confidential", "private",
              "between us", "do not share", "alone" ] : List String).map toL) ]

/-- `FORBIDDEN_PATTERNS` of config.py (already lowercase in the source). -/
def FORBIDDEN_PATTERNS : List Str :=
  ([ "the user", "the scammer", "user wants", "scammer wants",
     "training data", "output format", "instructions" ] : List String).map toL
    ++ ([ "i will", "i need to", "let me", "i should",
          "as an ai", "as a language model" ] : List String).map toL
    ++ [toL "i" ++ [apos] ++ toL "m an ai"]
    ++ ([ "the victim", "the agent", "honeypot",
          "generate", "scenario", "realistic", "respond with",
          "here is" ] : List String).map toL
    ++ [toL "here" ++ [apos] ++ toL "s the"]
    ++ ([ "the response",
          "i am calling from", "this is bank", "i am from bank",
          "we need your", "please provide your", "share your" ] : List String).map toL

/-- `NAIVE_RESPONSES` of config.py (the fixed fallback rotation). -/
def NAIVE_RESPONSES : List Str :=
  ([ "Haan ji? Kaun bol raha hai? Aapka phone number kya hai... main call back karungi verify karne ke liye?",
     "Arey arey... blocked matlab? Aap pakka bank se ho? Aapka direct number do na, main khud call karungi.",
     "Acha acha... par kahan bhejoon paisa? Woh UPI ID phir se bolo na slowly... likhti hoon... @ ke baad kya aata hai?",
     "Account number chahiye aapko? Woh passbook mein likha hai... par pehle aapka account number bolo jismein bhejoon? IFSC code bhi dena.",
     "Woh link wala message phir se bhejo... phone pe chhota likha hai dikha nahi. Pura URL bolo na http se?",
     "Email pe bhej do details beta... mera beta padhega. Aapka email ID kya hai? Gmail hai ya office wala?",
     "Haan haan main bhejti hoon... par UPI ID kya tha aapka? Woh @ wala phir se bolo na? Aur phone number bhi do backup ke liye.",
     "Aap branch ka phone number do na... landline hoga na? Aur woh website ka link bhi bhejo, main beta se check karwaungi.",
     "Theek hai... aapka website kya hai? Link bhejo WhatsApp pe. Aur email bhi do, main documents forward karungi.",
     "Padosan fraud fraud bol rahi thi... aapka official email bhejo, phone number do, aur UPI ID bhi — mera beta sab verify karega.",
     "Main confuse ho gayi... ek kaam karo — apna phone number, UPI ID, aur bank account number sab ek saath bol do. Main likh leti hoon.",
     "Arey sun nahi paya... woh link phir se bolo? Aur email pe bhi bhej do. Mera beta aayega toh check karega." ] : List String).map toL

/-- `MIN_MESSAGES` of config.py. -/
def MIN_MESSAGES : Nat := 5

/-- `MAX_MESSAGES` of config.py. -/
def MAX_MESSAGES : Nat := 10

/-! ### Intelligence extraction (src/src/intelligence.py) -/

/-- The accumulated-evidence record `session["extracted_intelligence"]`.
Field order follows the dict literal in honeypot_agent.get_session. -/
@[ext]
structure Intel where
  bankAccounts : List Str
  upiIds : List Str
  phishingLinks : List Str
  phoneNumbers : List Str
  emailAddresses : List Str
  suspiciousKeywords : List Str
deriving DecidableEq

def emptyIntel : Intel :=
  { bankAccounts := [], upiIds := [], phishingLinks := [], phoneNumbers := [],
    emailAddresses := [], suspiciousKeywords := [] }

/-- The `findall` results of the five patterns on one text, plus the scam
keywords occurring in the lowercased text — the only functions of the text
that `extract_intelligence` consumes. -/
structure Matches where
  email : List Str
  upi : List Str
  phone : List Str
  url : List Str
  bank : List Str
  keywords : List Str

def matchesOf (t : Str) : Matches :=
  { email := findallEmail t, upi := findallUpi t, phone := findallPhone t,
    url := findallUrl t, bank := findallBank t,
    keywords := SCAM_KEYWORDS.filter (fun kw => containsSub kw (lowerStr t)) }

/-- `if x not in s: s.append(x)`. -/
def addAbsent (s : List Str) (x : Str) : List Str :=
  if x ∈ s then s else s ++ [x]

/-- Step 1 of extract_intelligence: emails. -/
def emailSection (ms : List Str) (emails : List Str) : List Str :=
  ms.foldl addAbsent emails

/-- One iteration of the UPI loop of step 2: append the match unless it is
already present or is a substring of an already-captured email
(`any(match in email for email in ...)`). -/
def upiStep (emails : List Str) (acc : List Str) (u : Str) : List Str :=
  if u ∉ acc ∧ ¬ (emails.any (fun e => containsSub u e)) then acc ++ [u] else acc

/-- Step 2: UPI IDs. -/
def upiSection (ms : List Str) (emails : List Str) (upis : List Str) : List Str :=
  ms.foldl (upiStep emails) upis

/-- One iteration of the phone loop of step 3: the cleaned form always, the
original (stripped) form additionally when it differs. -/
def phoneStep (acc : List Str) (mt : Str) : List Str :=
  let original := stripWs mt
  let clean := removeSep original
  let acc1 := if clean ∈ acc then acc else acc ++ [clean]
  if original ≠ clean ∧ original ∉ acc1 then acc1 ++ [original] else acc1

/-- Step 3: phone numbers. -/
def phoneSection (ms : List Str) (phones : List Str) : List Str :=
  ms.foldl phoneStep phones

/-- Step 4: URLs with trailing punctuation stripped. -/
def urlSection (ms : List Str) (urls : List Str) : List Str :=
  ms.foldl (fun acc u => addAbsent acc (rstripPunct u)) urls

/-- The `phone_digits` membership test of step 5: the digit sequence of some
recorded phone, or the last 10 digits of one (Python builds the set
`{digits, digits[-10:]}`; membership in that set is this predicate). -/
def inPhoneDigits (b : Str) (phones : List Str) : Bool :=
  phones.any (fun pn => b == digitsOf pn || b == last10 (digitsOf pn))

/-- One iteration of the bank loop of step 5. -/
def bankStep (phones : List Str) (acc : List Str) (b : Str) : List Str :=
  if b ∉ acc ∧ inPhoneDigits b phones = false then acc ++ [b] else acc

/-- Step 5: bank accounts, deduplicated against the recorded phone digits. -/
def bankSection (ms : List Str) (phones : List Str) (banks : List Str) : List Str :=
  ms.foldl (bankStep phones) banks

/-- Step 6: suspicious keywords (the loop over `SCAM_KEYWORDS` restricted to
those occurring in the text, which is what `Matches.keywords` holds). -/
def keywordSection (ms : List Str) (kws : List Str) : List Str :=
  ms.foldl addAbsent kws

/-- `extract_intelligence` on the pattern matches of a text: the six steps in
source order.  Step 2 reads the email set updated by step 1; step 5 reads the
phone set updated by step 3. -/
def extractCore (m : Matches) (intel : Intel) : Intel :=
  let emails := emailSection m.email intel.emailAddresses
  let upis := upiSection m.upi emails intel.upiIds
  let phones := phoneSection m.phone intel.phoneNumbers
  let urls := urlSection m.url intel.phishingLinks
  let banks := bankSection m.bank phones intel.bankAccounts
  let kws := keywordSection m.keywords intel.suspiciousKeywords
  { bankAccounts := banks, upiIds := upis, phishingLinks := urls,
    phoneNumbers := phones, emailAddresses := emails, suspiciousKeywords := kws }

/-- `extract_intelligence(text, session)` restricted to its effect on the
evidence record. -/
def extract_intelligence (t : Str) (intel : Intel) : Intel :=
  extractCore (matchesOf t) intel

/-! ### Scam detection (src/src/scam_detection.py)

The confidence weights 0.6 / 0.3 / 0.2 and the thresholds 0.3 / 0.2 / 0.1
are all multiples of 0.1, and every reachable comparison against a threshold
is exact in binary floating point (a sum equal to a threshold only arises as
a single addend written with the same literal), so the score is modelled in
tenths as a `Nat`: weights 6 / 3 / 2, thresholds 3 / 2 / 1. -/

/-- `sum(1 for kw in SCAM_KEYWORDS if kw in text_lower)`. -/
def keywordHits (t : Str) : Nat :=
  SCAM_KEYWORDS.countP (fun kw => containsSub kw (lowerStr t))

/-- `pat.search(text)` for one compiled pattern: some position matches. -/
def searchBy (tf : Nat → Option Nat) (t : Str) : Bool :=
  !(scanG tf t.length 0).isEmpty

/-- `COMPILED_PATTERNS` as the detector iterates it (`.items()` order). -/
def patternSearchList (t : Str) : List Bool :=
  [ searchBy (tryUpi t) t, searchBy (tryPhone t) t, searchBy (tryUrl t) t,
    searchBy (tryBank t) t, searchBy (tryEmail t) t ]

/-- Layer 3 of the detector: any red-flag category with a trigger in the
lowercased text (the source loop breaks after the first hit, adding 0.2 once). -/
def anyRedFlag (t : Str) : Bool :=
  RED_FLAG_CATEGORIES.any (fun cat => cat.2.any (fun tr => containsSub tr (lowerStr t)))

/-- `detect_scam(text, turn)` — confidence accumulated layer by layer as in
the source, then compared to the turn-dependent threshold.  The Python
default argument is `turn = 1`; call sites that pass no turn pass `1` here. -/
def detect_scam (t : Str) (turn : Nat) : Bool :=
  let hits := keywordHits t
  let conf1 : Nat := if 2 ≤ hits then 6 else if hits = 1 then 3 else 0
  let conf2 := (patternSearchList t).foldl (fun c found => if found then c + 3 else c) conf1
  let conf3 := if anyRedFlag t then conf2 + 2 else conf2
  let threshold : Nat := if turn ≤ 1 then 3 else if turn ≤ 2 then 2 else 1
  decide (threshold ≤ conf3)

/-- `identify_red_flags(text)`: the labels of all matching categories. -/
def identify_red_flags (t : Str) : List String :=
  (RED_FLAG_CATEGORIES.filter
    (fun cat => cat.2.any (fun tr => containsSub tr (lowerStr t)))).map (fun cat => cat.1)

/-- Spec-side confidence, phrased as the claim states it: +0.6 for at least
two distinct keywords (+0.3 for exactly one), +0.3 per distinct pattern type
matching, a flat +0.2 when any red-flag trigger occurs — in tenths. -/
def specConfidence (t : Str) : Nat :=
  (if 2 ≤ keywordHits t then 6 else if keywordHits t = 1 then 3 else 0)
    + 3 * (patternSearchList t).count true
    + (if anyRedFlag t then 2 else 0)

/-- Spec-side turn-dependent threshold, in tenths. -/
def specThreshold (turn : Nat) : Nat :=
  if turn ≤ 1 then 3 else if turn ≤ 2 then 2 else 1

/-! ### Sessions, responses and the LLM path (src/src/honeypot_agent.py) -/

/-- One entry of `session["conversation"]` (timestamp elided). -/
structure ConvEntry where
  scammer : Str
  agent : Str
deriving DecidableEq

/-- The session record of get_session (timestamps and the persona prompt
elided; nothing in the claims reads them). -/
structure Session where
  messages_exchanged : Nat
  scam_detected : Bool
  state : String
  persona_name : Option String
  extracted_intelligence : Intel
  red_flags : List String
  callback_sent : Bool
  conversation : List ConvEntry
deriving DecidableEq

/-- The fresh session created by `get_session` on first reference. -/
def initSession : Session :=
  { messages_exchanged := 0, scam_detected := false, state := "trust_building",
    persona_name := none, extracted_intelligence := emptyIntel, red_flags := [],
    callback_sent := false, conversation := [] }

/-- `transition_state`: deterministic phase from the message count. -/
def transition_state (s : Session) : Session :=
  let n := s.messages_exchanged
  if n ≤ 2 then { s with state := "trust_building" }
  else if n ≤ 5 then { s with state := "probing" }
  else if n ≤ 8 then { s with state := "extraction" }
  else { s with state := "winding_down" }

/-- `get_agent_response`: the fallback rotation indexed by the turn counter
modulo the rotation length. -/
def get_agent_response (s : Session) : Str :=
  NAIVE_RESPONSES.getD (s.messages_exchanged % NAIVE_RESPONSES.length) []

def SUSPICION_REPLIES : List Str :=
  ([ "Ji? Kaun bol raha hai? Pehchaan nahi aaya...",
     "Hello? Haan ji, kaun?",
     "Arey, kaun hai? Kya baat hai?",
     "Ji haan, boliye? Aap kaun bol rahe ho?",
     "Hello? Aap kaun? Main samajh nahi paayi...",
     "Ji? Kya hua? Aap kaun bol rahe ho?" ] : List String).map toL

/-- External collaborators and randomness, supplied as an oracle:
`groqAvailable` models `groq_client is not None`; `genReply` the raw LLM
output (`none` = the API call raised); `personaChoice` the persona selector
(src.personas is outside this core); `suspicionIdx` the `random.choice`
draw for the suspicion replies. -/
structure Env where
  groqAvailable : Bool
  genReply : Option Str
  personaChoice : String
  suspicionIdx : Nat

/-- `random.choice(_SUSPICION_REPLIES)` under the oracle index. -/
def get_suspicion_reply (env : Env) : Str :=
  SUSPICION_REPLIES.getD (env.suspicionIdx % SUSPICION_REPLIES.length) []

/-- The persona lock performed inside get_llm_response's try block. -/
def setPersona (env : Env) (s : Session) : Session :=
  if s.persona_name = none then { s with persona_name := some env.personaChoice } else s

/-- `get_llm_response`: fallback when the client is unavailable; otherwise
lock the persona, then sanitize the raw reply — forbidden phrase (on the
lowercased stripped reply), length over 400, or emptiness each replace it by
the fallback rotation.  An exception from the API call (`genReply = none`)
lands in the catch-all fallback. -/
def get_llm_response (env : Env) (s : Session) : Session × Str :=
  if env.groqAvailable = false then (s, get_agent_response s)
  else
    let s := setPersona env s
    match env.genReply with
    | none => (s, get_agent_response s)
    | some raw =>
      let reply := stripWs raw
      if FORBIDDEN_PATTERNS.any (fun p => containsSub p (lowerStr reply)) then
        (s, get_agent_response s)
      else if 400 < reply.length then (s, get_agent_response s)
      else if reply ≠ [] then (s, reply)
      else (s, get_agent_response s)

/-! ### The request handler (src/src/main.py, `honeypot`) -/

/-- One entry of the caller-supplied `conversationHistory`.
Modelled from the spec: src/models.py is not under src/src; the spec's
inbound-request shape (§6) gives an ordered list of sender/text pairs, which
is exactly how main.py consumes it (`hist_msg.get("sender")`,
`hist_msg.get("text") or hist_msg.get("content")`). -/
structure HistMsg where
  sender : String
  text : Str
deriving DecidableEq

/-- The inbound request: the message text as `_extract_message_text` reads it
before stripping, plus the optional history.
Modelled from the spec: src/models.py (HoneypotRequest) is not under
src/src; §6 gives a session identifier, a message carrying a text field, and
an optional prior history.  The session identifier only selects the session
record, so the handler below takes the session record directly. -/
structure Request where
  message : Str
  history : List HistMsg

def GREETING_REPLY : Str := toL "Hello. How can I help you?"

def HARD_CAP_REPLY : Str :=
  toL "Acha beta, main baad mein baat karti hoon. Abhi mujhe kaam hai."

/-- `send_callback`: posts the report to the external collaborator and sets
the `callback_sent` flag (first statement of the function).  The network
delivery itself is external; the handler's output records each invocation. -/
def send_callback (s : Session) : Session := { s with callback_sent := true }

/-- The scam-detection update of STEP 1 (and of the history loop): the
detector is called without a turn argument, hence with Python's default
`turn = 1`. -/
def detectUpdate (s : Session) (t : Str) : Session :=
  if s.scam_detected then s else { s with scam_detected := detect_scam t 1 }

/-- Red-flag accumulation: append each newly seen label. -/
def addFlags (found : List String) (flags : List String) : List String :=
  found.foldl (fun acc f => if f ∈ acc then acc else acc ++ [f]) flags

/-- One history message of `extract_intelligence_from_history`: extract when
the text is non-empty. -/
def historyIntelStep (s : Session) (h : HistMsg) : Session :=
  if h.text ≠ [] then
    { s with extracted_intelligence :=
        extract_intelligence h.text s.extracted_intelligence }
  else s

/-- One history message of the detection / red-flag loop of the handler. -/
def historyDetectStep (s : Session) (h : HistMsg) : Session :=
  if h.text ≠ [] then
    let s := detectUpdate s h.text
    { s with red_flags := addFlags (identify_red_flags h.text) s.red_flags }
  else s

/-- One history message of the first-call seeding loop: a scammer message
opens a new conversation entry; a user message fills the last entry's agent
slot (when one exists) and increments the turn counter. -/
def seedStep (s : Session) (h : HistMsg) : Session :=
  if h.sender = "scammer" then
    { s with conversation := s.conversation ++ [{ scammer := h.text, agent := [] }] }
  else if h.sender = "user" then
    let s :=
      if hc : s.conversation ≠ [] then
        { s with conversation :=
            s.conversation.dropLast
              ++ [{ s.conversation.getLast hc with agent := h.text }] }
      else s
    { s with messages_exchanged := s.messages_exchanged + 1 }
  else s

/-- The history block of the handler (main.py lines 327–350): intelligence
extraction over every history message, then detection and red-flag
accumulation over every history message, then — only when the session has
zero prior exchanges — seeding of the conversation structure. -/
def processHistory (s : Session) (hist : List HistMsg) : Session :=
  if hist = [] then s
  else
    let s := hist.foldl historyIntelStep s
    let s := hist.foldl historyDetectStep s
    if s.messages_exchanged = 0 then hist.foldl seedStep s else s

/-- STEP 4 of the handler: the LLM path when detected; the suspicion reply on
a single keyword hit, with detection forced on two; the naive rotation
otherwise. -/
def generateReply (env : Env) (s : Session) (message : Str) : Session × Str :=
  if s.scam_detected then get_llm_response env s
  else
    let hits := keywordHits message
    if 1 ≤ hits then
      (if 2 ≤ hits then { s with scam_detected := true } else s,
       get_suspicion_reply env)
    else (s, get_agent_response s)

/-- STEP 1 – STEP 5 of the handler for a non-empty message: detection,
extraction, red flags, response generation, then turn increment, state
transition and conversation append. -/
def mainPhase (env : Env) (s : Session) (message : Str) : Session × Str :=
  let s := detectUpdate s message
  let s := { s with extracted_intelligence :=
      extract_intelligence message s.extracted_intelligence }
  let s := { s with red_flags := addFlags (identify_red_flags message) s.red_flags }
  let sr := generateReply env s message
  let s := sr.1
  let reply := sr.2
  let s := { s with messages_exchanged := s.messages_exchanged + 1 }
  let s := transition_state s
  let s := { s with conversation := s.conversation ++ [{ scammer := message, agent := reply }] }
  (s, reply)

/-- The handler's result: the mutated session, the reply text, and whether
the reporting collaborator was invoked during this request. -/
structure StepOut where
  session : Session
  reply : Str
  callbackFired : Bool
deriving DecidableEq

/-- The `POST /api/honeypot` handler, per inbound request against one session
record: hard cap short-circuit (with its guarded callback), history replay,
empty-message early return, the main phase, and the STEP 6 callback — which
in the live path is guarded only by `scam_detected` and the MIN_MESSAGES
floor, not by `callback_sent`. -/
def honeypot (env : Env) (req : Request) (s : Session) : StepOut :=
  if MAX_MESSAGES ≤ s.messages_exchanged then
    if s.scam_detected ∧ s.callback_sent = false then
      { session := send_callback s, reply := HARD_CAP_REPLY, callbackFired := true }
    else { session := s, reply := HARD_CAP_REPLY, callbackFired := false }
  else
    let message := stripWs req.message
    let s := processHistory s req.history
    if message = [] then { session := s, reply := GREETING_REPLY, callbackFired := false }
    else
      let sr := mainPhase env s message
      let s := sr.1
      if s.scam_detected ∧ MIN_MESSAGES ≤ s.messages_exchanged then
        { session := send_callback s, reply := sr.2, callbackFired := true }
      else { session := s, reply := sr.2, callbackFired := false }

/-- Fold a request sequence through the handler from a fresh session,
counting how many times the reporting collaborator is invoked. -/
def runSeq (env : Env) (reqs : List Request) : Session × Nat :=
  reqs.foldl
    (fun acc r =>
      let o := honeypot env r acc.1
      (o.session, acc.2 + if o.callbackFired then 1 else 0))
    (initSession, 0)

/-! ## Lemmas about the extraction folds -/

theorem mem_addAbsent_left {s : List Str} {x y : Str} (h : x ∈ s) : x ∈ addAbsent s y := by
  unfold addAbsent; split
  · exact h
  · exact List.mem_append_left _ h

theorem mem_addAbsent_self (s : List Str) (y : Str) : y ∈ addAbsent s y := by
  unfold addAbsent; split
  · assumption
  · exact List.mem_append_right _ (List.mem_singleton.mpr rfl)

theorem addAbsent_eq_self {s : List Str} {y : Str} (h : y ∈ s) : addAbsent s y = s := by
  unfold addAbsent; simp [h]

theorem emailSection_cons (a : Str) (l : List Str) (s : List Str) :
    emailSection (a :: l) s = emailSection l (addAbsent s a) := rfl

theorem mem_emailSection_left {ms s : List Str} {x : Str} (h : x ∈ s) :
    x ∈ emailSection ms s := by
  induction ms generalizing s with
  | nil => exact h
  | cons a l ih =>
    rw [emailSection_cons]
    exact ih (mem_addAbsent_left h)

theorem mem_emailSection_of_mem {ms s : List Str} {x : Str} (h : x ∈ ms) :
    x ∈ emailSection ms s := by
  induction ms generalizing s with
  | nil => cases h
  | cons a l ih =>
    rw [emailSection_cons]
    rcases List.mem_cons.mp h with rfl | hx
    · exact mem_emailSection_left (mem_addAbsent_self s x)
    · exact ih hx

theorem emailSection_eq_self {ms s : List Str} (h : ∀ x ∈ ms, x ∈ s) :
    emailSection ms s = s := by
  induction ms with
  | nil => rfl
  | cons a l ih =>
    rw [emailSection_cons, addAbsent_eq_self (h a (List.mem_cons_self a l))]
    exact ih (fun x hx => h x (List.mem_cons_of_mem a hx))

theorem upiSection_cons (E : List Str) (a : Str) (l : List Str) (s : List Str) :
    upiSection (a :: l) E s = upiSection l E (upiStep E s a) := rfl

theorem mem_upiStep_left {E s : List Str} {x u : Str} (h : x ∈ s) : x ∈ upiStep E s u := by
  unfold upiStep; split
  · exact List.mem_append_left _ h
  · exact h

theorem mem_upiSection_left {ms E s : List Str} {x : Str} (h : x ∈ s) :
    x ∈ upiSection ms E s := by
  induction ms generalizing s with
  | nil => exact h
  | cons a l ih =>
    rw [upiSection_cons]
    exact ih (mem_upiStep_left h)

theorem upiSection_post {ms E s : List Str} {u : Str} (h : u ∈ ms) :
    u ∈ upiSection ms E s ∨ E.any (fun e => containsSub u e) = true := by
  induction ms generalizing s with
  | nil => cases h
  | cons a l ih =>
    rw [upiSection_cons]
    rcases List.mem_cons.mp h with rfl | hx
    · by_cases hm : u ∈ s
      · exact Or.inl (mem_upiSection_left (mem_upiStep_left hm))
      · by_cases he : E.any (fun e => containsSub u e) = true
        · exact Or.inr he
        · left
          have : upiStep E s u = s ++ [u] := by
            unfold upiStep
            rw [if_pos ⟨hm, by simpa using he⟩]
          rw [this]
          exact mem_upiSection_left (List.mem_append_right _ (List.mem_singleton.mpr rfl))
    · exact ih hx

theorem upiSection_eq_self {ms E s : List Str}
    (h : ∀ u ∈ ms, u ∈ s ∨ E.any (fun e => containsSub u e) = true) :
    upiSection ms E s = s := by
  induction ms with
  | nil => rfl
  | cons a l ih =>
    have hstep : upiStep E s a = s := by
      unfold upiStep
      rw [if_neg]
      rcases h a (List.mem_cons_self a l) with hs | he
      · intro hc; exact hc.1 hs
      · intro hc; exact hc.2 he
    rw [upiSection_cons, hstep]
    exact ih (fun u hu => h u (List.mem_cons_of_mem a hu))

theorem phoneSection_cons (a : Str) (l : List Str) (s : List Str) :
    phoneSection (a :: l) s = phoneSection l (phoneStep s a) := rfl

theorem mem_phoneStep_left {s : List Str} {x mt : Str} (h : x ∈ s) : x ∈ phoneStep s mt := by
  unfold phoneStep
  dsimp only
  by_cases h1 : removeSep (stripWs mt) ∈ s
  · rw [if_pos h1]
    split
    · exact List.mem_append_left _ h
    · exact h
  · rw [if_neg h1]
    split
    · exact List.mem_append_left _ (List.mem_append_left _ h)
    · exact List.mem_append_left _ h

theorem mem_phoneStep_clean (s : List Str) (mt : Str) :
    removeSep (stripWs mt) ∈ phoneStep s mt := by
  unfold phoneStep
  dsimp only
  by_cases h1 : removeSep (stripWs mt) ∈ s
  · rw [if_pos h1]
    split
    · exact List.mem_append_left _ h1
    · exact h1
  · rw [if_neg h1]
    split
    · exact List.mem_append_left _ (List.mem_append_right _ (List.mem_singleton.mpr rfl))
    · exact List.mem_append_right _ (List.mem_singleton.mpr rfl)

theorem mem_phoneStep_orig {s : List Str} {mt : Str}
    (hne : stripWs mt ≠ removeSep (stripWs mt)) : stripWs mt ∈ phoneStep s mt := by
  unfold phoneStep
  dsimp only
  by_cases h1 : removeSep (stripWs mt) ∈ s
  · rw [if_pos h1]
    by_cases h2 : stripWs mt ∈ s
    · rw [if_neg (fun hcon => hcon.2 h2)]
      exact h2
    · rw [if_pos ⟨hne, h2⟩]
      exact List.mem_append_right _ (List.mem_singleton.mpr rfl)
  · rw [if_neg h1]
    by_cases h2 : stripWs mt ∈ s ++ [removeSep (stripWs mt)]
    · rw [if_neg (fun hcon => hcon.2 h2)]
      exact h2
    · rw [if_pos ⟨hne, h2⟩]
      exact List.mem_append_right _ (List.mem_singleton.mpr rfl)

theorem phoneStep_eq_self {s : List Str} {mt : Str}
    (hc : removeSep (stripWs mt) ∈ s)
    (ho : stripWs mt = removeSep (stripWs mt) ∨ stripWs mt ∈ s) :
    phoneStep s mt = s := by
  unfold phoneStep
  dsimp only
  rw [if_pos hc, if_neg]
  rcases ho with he | hm
  · intro hcon; exact hcon.1 he
  · intro hcon; exact hcon.2 hm

theorem phoneStep_sub {s : List Str} {x mt : Str} (h : x ∈ phoneStep s mt) :
    x ∈ s ∨ x = removeSep (stripWs mt) ∨ x = stripWs mt := by
  unfold phoneStep at h
  dsimp only at h
  by_cases h1 : removeSep (stripWs mt) ∈ s
  · rw [if_pos h1] at h
    split at h
    · rcases List.mem_append.mp h with hs | hx
      · exact Or.inl hs
      · exact Or.inr (Or.inr (List.mem_singleton.mp hx))
    · exact Or.inl h
  · rw [if_neg h1] at h
    split at h
    · rcases List.mem_append.mp h with hs | hx
      · rcases List.mem_append.mp hs with hs | hy
        · exact Or.inl hs
        · exact Or.inr (Or.inl (List.mem_singleton.mp hy))
      · exact Or.inr (Or.inr (List.mem_singleton.mp hx))
    · rcases List.mem_append.mp h with hs | hy
      · exact Or.inl hs
      · exact Or.inr (Or.inl (List.mem_singleton.mp hy))

theorem mem_phoneSection_left {ms s : List Str} {x : Str} (h : x ∈ s) :
    x ∈ phoneSection ms s := by
  induction ms generalizing s with
  | nil => exact h
  | cons a l ih =>
    rw [phoneSection_cons]
    exact ih (mem_phoneStep_left h)

theorem phoneSection_post_clean {ms s : List Str} {mt : Str} (h : mt ∈ ms) :
    removeSep (stripWs mt) ∈ phoneSection ms s := by
  induction ms generalizing s with
  | nil => cases h
  | cons a l ih =>
    rw [phoneSection_cons]
    rcases List.mem_cons.mp h with rfl | hx
    · exact mem_phoneSection_left (mem_phoneStep_clean s mt)
    · exact ih hx

theorem phoneSection_post_orig {ms s : List Str} {mt : Str} (h : mt ∈ ms)
    (hne : stripWs mt ≠ removeSep (stripWs mt)) :
    stripWs mt ∈ phoneSection ms s := by
  induction ms generalizing s with
  | nil => cases h
  | cons a l ih =>
    rw [phoneSection_cons]
    rcases List.mem_cons.mp h with rfl | hx
    · exact mem_phoneSection_left (mem_phoneStep_orig hne)
    · exact ih hx

theorem phoneSection_eq_self {ms s : List Str}
    (h : ∀ mt ∈ ms, removeSep (stripWs mt) ∈ s ∧
      (stripWs mt = removeSep (stripWs mt) ∨ stripWs mt ∈ s)) :
    phoneSection ms s = s := by
  induction ms with
  | nil => rfl
  | cons a l ih =>
    obtain ⟨hc, ho⟩ := h a (List.mem_cons_self a l)
    rw [phoneSection_cons, phoneStep_eq_self hc ho]
    exact ih (fun mt hmt => h mt (List.mem_cons_of_mem a hmt))

theorem bankSection_cons (P : List Str) (a : Str) (l : List Str) (s : List Str) :
    bankSection (a :: l) P s = bankSection l P (bankStep P s a) := rfl

theorem mem_bankStep_left {P s : List Str} {x b : Str} (h : x ∈ s) : x ∈ bankStep P s b := by
  unfold bankStep; split
  · exact List.mem_append_left _ h
  · exact h

theorem mem_bankSection_left {ms P s : List Str} {x : Str} (h : x ∈ s) :
    x ∈ bankSection ms P s := by
  induction ms generalizing s with
  | nil => exact h
  | cons a l ih =>
    rw [bankSection_cons]
    exact ih (mem_bankStep_left h)

theorem bankSection_post {ms P s : List Str} {b : Str} (h : b ∈ ms) :
    b ∈ bankSection ms P s ∨ inPhoneDigits b P = true := by
  induction ms generalizing s with
  | nil => cases h
  | cons a l ih =>
    rw [bankSection_cons]
    rcases List.mem_cons.mp h with rfl | hx
    · by_cases hm : b ∈ s
      · exact Or.inl (mem_bankSection_left (mem_bankStep_left hm))
      · by_cases hp : inPhoneDigits b P = true
        · exact Or.inr hp
        · left
          have : bankStep P s b = s ++ [b] := by
            unfold bankStep
            rw [if_pos ⟨hm, by simpa using hp⟩]
          rw [this]
          exact mem_bankSection_left (List.mem_append_right _ (List.mem_singleton.mpr rfl))
    · exact ih hx

theorem bankSection_eq_self {ms P s : List Str}
    (h : ∀ b ∈ ms, b ∈ s ∨ inPhoneDigits b P = true) :
    bankSection ms P s = s := by
  induction ms with
  | nil => rfl
  | cons a l ih =>
    have hstep : bankStep P s a = s := by
      unfold bankStep
      rw [if_neg]
      rcases h a (List.mem_cons_self a l) with hs | hp
      · intro hc; exact hc.1 hs
      · intro hc; rw [hp] at hc; exact absurd hc.2 (by simp)
    rw [bankSection_cons, hstep]
    exact ih (fun b hb => h b (List.mem_cons_of_mem a hb))

/-- Every element of the bank section's output was either already recorded or
is a pattern match that passed the phone-digit filter. -/
theorem bankSection_added {ms P s : List Str} {x : Str}
    (h : x ∈ bankSection ms P s) :
    x ∈ s ∨ (x ∈ ms ∧ inPhoneDigits x P = false) := by
  induction ms generalizing s with
  | nil => exact Or.inl h
  | cons a l ih =>
    rw [bankSection_cons] at h
    rcases ih h with hs | hml
    · by_cases hc : a ∉ s ∧ inPhoneDigits a P = false
      · unfold bankStep at hs
        rw [if_pos hc] at hs
        rcases List.mem_append.mp hs with hs | hx
        · exact Or.inl hs
        · right
          rcases List.mem_singleton.mp hx with rfl
          exact ⟨List.mem_cons_self _ _, hc.2⟩
      · unfold bankStep at hs
        rw [if_neg hc] at hs
        exact Or.inl hs
    · exact Or.inr ⟨List.mem_cons_of_mem a hml.1, hml.2⟩

/-- Every element of the phone section's output was either already recorded
or is the cleaned / original form of a pattern match. -/
theorem phoneSection_added {ms s : List Str} {x : Str}
    (h : x ∈ phoneSection ms s) :
    x ∈ s ∨ ∃ mt ∈ ms, x = removeSep (stripWs mt) ∨ x = stripWs mt := by
  induction ms generalizing s with
  | nil => exact Or.inl h
  | cons a l ih =>
    rw [phoneSection_cons] at h
    rcases ih h with hs | ⟨mt, hmt, hx⟩
    · rcases phoneStep_sub hs with hs | hx
      · exact Or.inl hs
      · exact Or.inr ⟨a, List.mem_cons_self _ _, hx⟩
    · exact Or.inr ⟨mt, List.mem_cons_of_mem a hmt, hx⟩

/-! Projections of `extractCore`, used to reason section by section. -/

theorem extractCore_emails (m : Matches) (i : Intel) :
    (extractCore m i).emailAddresses = emailSection m.email i.emailAddresses := rfl

theorem extractCore_upis (m : Matches) (i : Intel) :
    (extractCore m i).upiIds =
      upiSection m.upi (emailSection m.email i.emailAddresses) i.upiIds := rfl

theorem extractCore_phones (m : Matches) (i : Intel) :
    (extractCore m i).phoneNumbers = phoneSection m.phone i.phoneNumbers := rfl

theorem extractCore_urls (m : Matches) (i : Intel) :
    (extractCore m i).phishingLinks = urlSection m.url i.phishingLinks := rfl

theorem extractCore_banks (m : Matches) (i : Intel) :
    (extractCore m i).bankAccounts =
      bankSection m.bank (phoneSection m.phone i.phoneNumbers) i.bankAccounts := rfl

theorem extractCore_kws (m : Matches) (i : Intel) :
    (extractCore m i).suspiciousKeywords =
      keywordSection m.keywords i.suspiciousKeywords := rfl

/-- The url section is the email-style fold over the cleaned matches. -/
theorem urlSection_eq (ms s : List Str) :
    urlSection ms s = emailSection (ms.map rstripPunct) s := by
  unfold urlSection emailSection
  rw [List.foldl_map]

/-- The keyword section is literally the email-style fold. -/
theorem keywordSection_eq (ms s : List Str) :
    keywordSection ms s = emailSection ms s := rfl

/-- Idempotence of the extraction core: a second application with the same
matches changes nothing. -/
theorem extractCore_idem (m : Matches) (i : Intel) :
    extractCore m (extractCore m i) = extractCore m i := by
  have hE : emailSection m.email (extractCore m i).emailAddresses
      = (extractCore m i).emailAddresses := by
    refine emailSection_eq_self (fun x hx => ?_)
    rw [extractCore_emails]
    exact mem_emailSection_of_mem hx
  have hP : phoneSection m.phone (extractCore m i).phoneNumbers
      = (extractCore m i).phoneNumbers := by
    refine phoneSection_eq_self (fun mt hmt => ?_)
    rw [extractCore_phones]
    refine ⟨phoneSection_post_clean hmt, ?_⟩
    by_cases he : stripWs mt = removeSep (stripWs mt)
    · exact Or.inl he
    · exact Or.inr (phoneSection_post_orig hmt he)
  have keyU : (extractCore m i).upiIds
      = upiSection m.upi (extractCore m i).emailAddresses i.upiIds := by
    rw [extractCore_upis, extractCore_emails]
  have hU : upiSection m.upi (extractCore m i).emailAddresses (extractCore m i).upiIds
      = (extractCore m i).upiIds := by
    refine upiSection_eq_self (fun u hu => ?_)
    rw [keyU]
    exact upiSection_post hu
  have hL : urlSection m.url (extractCore m i).phishingLinks
      = (extractCore m i).phishingLinks := by
    rw [urlSection_eq]
    refine emailSection_eq_self (fun x hx => ?_)
    rw [extractCore_urls, urlSection_eq]
    exact mem_emailSection_of_mem hx
  have keyB : (extractCore m i).bankAccounts
      = bankSection m.bank (extractCore m i).phoneNumbers i.bankAccounts := by
    rw [extractCore_banks, extractCore_phones]
  have hB : bankSection m.bank (extractCore m i).phoneNumbers (extractCore m i).bankAccounts
      = (extractCore m i).bankAccounts := by
    refine bankSection_eq_self (fun b hb => ?_)
    rw [keyB]
    exact bankSection_post hb
  have hK : keywordSection m.keywords (extractCore m i).suspiciousKeywords
      = (extractCore m i).suspiciousKeywords := by
    rw [keywordSection_eq]
    refine emailSection_eq_self (fun x hx => ?_)
    rw [extractCore_kws, keywordSection_eq]
    exact mem_emailSection_of_mem hx
  refine Intel.ext ?_ ?_ ?_ ?_ ?_ ?_
  · rw [extractCore_banks, hP, hB]
  · rw [extractCore_upis, hE, hU]
  · rw [extractCore_urls, hL]
  · rw [extractCore_phones, hP]
  · rw [extractCore_emails, hE]
  · rw [extractCore_kws, hK]

/-! ## Lemmas about the detector -/

/-- Layer 2 of the detector adds 0.3 per matching pattern: the fold equals
three times the number of matching pattern types. -/
theorem detect_fold_count (l : List Bool) (a : Nat) :
    l.foldl (fun c found => if found then c + 3 else c) a = a + 3 * l.count true := by
  induction l generalizing a with
  | nil => simp
  | cons b bs ih =>
    cases b
    · simp only [List.foldl_cons, if_neg Bool.false_ne_true, ih, List.count_cons]
      simp
    · simp only [List.foldl_cons, if_pos rfl, ih, List.count_cons]
      simp
      omega

/-- The detector decision unfolded to the spec-side confidence and threshold. -/
theorem detect_scam_iff (t : Str) (turn : Nat) :
    detect_scam t turn = true ↔ specThreshold turn ≤ specConfidence t := by
  unfold detect_scam specConfidence specThreshold
  dsimp only
  rw [detect_fold_count]
  cases h : anyRedFlag t <;> simp [h]

/-- The turn-dependent threshold never increases as the turn index grows. -/
theorem specThreshold_antitone {a b : Nat} (h : a ≤ b) :
    specThreshold b ≤ specThreshold a := by
  unfold specThreshold
  split_ifs <;> omega

/-! ## Claim theorems -/

/-- Claim C2: for every text and every evidence record, applying the
intelligence extractor twice with the same text yields exactly the evidence
of a single application — no set grows on the repeated application. -/
theorem extract_intelligence_idem (t : Str) (intel : Intel) :
    extract_intelligence t (extract_intelligence t intel) = extract_intelligence t intel :=
  extractCore_idem (matchesOf t) intel

/-- Claim C5: `detect_scam text turn` returns true iff the accumulated
confidence (in tenths: +6 for at least two distinct scam keywords, +3 for
exactly one, +3 per distinct pattern-library identifier type matching, a
flat +2 when any red-flag trigger occurs) reaches the turn-dependent
threshold, and that threshold is monotonically non-increasing in the turn
index. -/
theorem detect_scam_spec :
    (∀ (t : Str) (turn : Nat),
        detect_scam t turn = true ↔ specThreshold turn ≤ specConfidence t)
      ∧ (∀ a b : Nat, a ≤ b → specThreshold b ≤ specThreshold a) :=
  ⟨detect_scam_iff, fun _ _ h => specThreshold_antitone h⟩

/-- Witness for C5 at the concrete text "otp" and turns 2 ≤ 3. -/
theorem detect_scam_spec_witness :
    (detect_scam (toL "otp") 1 = true ↔ specThreshold 1 ≤ specConfidence (toL "otp"))
      ∧ specThreshold 3 ≤ specThreshold 2 :=
  ⟨detect_scam_spec.1 (toL "otp") 1, detect_scam_spec.2 2 3 (by decide)⟩

/-- Claim C6: in the live message path the Engagement Controller calls the
detector without a turn argument — `detectUpdate` passes the Python default
`turn = 1` — so for a session not yet marked detected the decision compares
the confidence against the strictest threshold (0.3, i.e. 3 tenths), no
matter how many turns the session has exchanged, and no other threshold is
ever stricter. -/
theorem detectUpdate_uses_turn_one (s : Session) (m : Str)
    (h : s.scam_detected = false) :
    ((detectUpdate s m).scam_detected = true ↔ 3 ≤ specConfidence m)
      ∧ specThreshold 1 = 3 ∧ (∀ turn : Nat, specThreshold turn ≤ specThreshold 1) := by
  refine ⟨?_, rfl, fun turn => ?_⟩
  · unfold detectUpdate
    rw [h]
    simp only [Bool.false_eq_true, if_neg]
    have := detect_scam_iff m 1
    simpa using this
  · unfold specThreshold
    split_ifs <;> omega

/-- Witness for C6 at a fresh session and the message "otp". -/
theorem detectUpdate_uses_turn_one_witness :
    ((detectUpdate initSession (toL "otp")).scam_detected = true
        ↔ 3 ≤ specConfidence (toL "otp"))
      ∧ specThreshold 1 = 3 ∧ (∀ turn : Nat, specThreshold turn ≤ specThreshold 1) :=
  detectUpdate_uses_turn_one initSession (toL "otp") (by decide)

/-- Claim C7: the message "hello, good morning" — no scam keywords, no
pattern-library identifiers, no red-flag triggers — is classified as not a
scam at turn 1. -/
theorem turn_one_precision :
    detect_scam (toL "hello, good morning") 1 = false := by decide

/-- Claim C8: extracting from "pay to scam@fakebank or call 9876543210"
against empty evidence adds exactly the payment handle `scam@fakebank` and
the phone number `9876543210`, and neither a bank-account-like entry (the
ten-digit phone run is excluded) nor an email entry. -/
theorem scenario_upi_phone :
    (extract_intelligence (toL "pay to scam@fakebank or call 9876543210") emptyIntel).upiIds
        = [toL "scam@fakebank"]
      ∧ (extract_intelligence (toL "pay to scam@fakebank or call 9876543210")
          emptyIntel).phoneNumbers = [toL "9876543210"]
      ∧ (extract_intelligence (toL "pay to scam@fakebank or call 9876543210")
          emptyIntel).bankAccounts = []
      ∧ (extract_intelligence (toL "pay to scam@fakebank or call 9876543210")
          emptyIntel).emailAddresses = [] := by decide

/-! ## Field-preservation lemmas for the handler -/

theorem setPersona_count (env : Env) (s : Session) :
    (setPersona env s).messages_exchanged = s.messages_exchanged := by
  unfold setPersona; split <;> rfl

theorem setPersona_conv (env : Env) (s : Session) :
    (setPersona env s).conversation = s.conversation := by
  unfold setPersona; split <;> rfl

theorem get_llm_response_fst (env : Env) (s : Session) :
    (get_llm_response env s).1 = s ∨ (get_llm_response env s).1 = setPersona env s := by
  unfold get_llm_response
  split
  · exact Or.inl rfl
  · cases h : env.genReply with
    | none => exact Or.inr rfl
    | some raw =>
      dsimp only
      split_ifs <;> exact Or.inr rfl

theorem generateReply_fst (env : Env) (s : Session) (m : Str) :
    (generateReply env s m).1 = s ∨ (generateReply env s m).1 = setPersona env s
      ∨ (generateReply env s m).1 = { s with scam_detected := true } := by
  unfold generateReply
  split
  · rcases get_llm_response_fst env s with h | h
    · exact Or.inl h
    · exact Or.inr (Or.inl h)
  · dsimp only
    split
    · split
      · exact Or.inr (Or.inr rfl)
      · exact Or.inl rfl
    · exact Or.inl rfl

theorem generateReply_count (env : Env) (s : Session) (m : Str) :
    (generateReply env s m).1.messages_exchanged = s.messages_exchanged := by
  rcases generateReply_fst env s m with h | h | h
  · rw [h]
  · rw [h]; exact setPersona_count env s
  · rw [h]

theorem generateReply_conv (env : Env) (s : Session) (m : Str) :
    (generateReply env s m).1.conversation = s.conversation := by
  rcases generateReply_fst env s m with h | h | h
  · rw [h]
  · rw [h]; exact setPersona_conv env s
  · rw [h]

theorem transition_state_count (s : Session) :
    (transition_state s).messages_exchanged = s.messages_exchanged := by
  unfold transition_state; dsimp only; split_ifs <;> rfl

theorem transition_state_conv (s : Session) :
    (transition_state s).conversation = s.conversation := by
  unfold transition_state; dsimp only; split_ifs <;> rfl

theorem detectUpdate_count (s : Session) (t : Str) :
    (detectUpdate s t).messages_exchanged = s.messages_exchanged := by
  unfold detectUpdate; split <;> rfl

theorem detectUpdate_conv (s : Session) (t : Str) :
    (detectUpdate s t).conversation = s.conversation := by
  unfold detectUpdate; split <;> rfl

/-- STEP 5 increments the turn counter exactly once per processed message. -/
theorem mainPhase_count (env : Env) (s : Session) (m : Str) :
    (mainPhase env s m).1.messages_exchanged = s.messages_exchanged + 1 := by
  simp [mainPhase, transition_state_count, generateReply_count, detectUpdate_count]

/-- STEP 5 appends exactly one conversation-log entry per processed message. -/
theorem mainPhase_convlen (env : Env) (s : Session) (m : Str) :
    (mainPhase env s m).1.conversation.length = s.conversation.length + 1 := by
  simp [mainPhase, transition_state_conv, generateReply_conv, detectUpdate_conv]

theorem historyIntelStep_count (s : Session) (h : HistMsg) :
    (historyIntelStep s h).messages_exchanged = s.messages_exchanged := by
  unfold historyIntelStep; split <;> rfl

theorem historyIntelStep_conv (s : Session) (h : HistMsg) :
    (historyIntelStep s h).conversation = s.conversation := by
  unfold historyIntelStep; split <;> rfl

theorem historyDetectStep_count (s : Session) (h : HistMsg) :
    (historyDetectStep s h).messages_exchanged = s.messages_exchanged := by
  unfold historyDetectStep
  split
  · dsimp only
    rw [detectUpdate_count]
  · rfl

theorem historyDetectStep_conv (s : Session) (h : HistMsg) :
    (historyDetectStep s h).conversation = s.conversation := by
  unfold historyDetectStep
  split
  · dsimp only
    rw [detectUpdate_conv]
  · rfl

theorem foldIntel_count (hist : List HistMsg) (s : Session) :
    (hist.foldl historyIntelStep s).messages_exchanged = s.messages_exchanged := by
  induction hist generalizing s with
  | nil => rfl
  | cons a l ih => rw [List.foldl_cons, ih, historyIntelStep_count]

theorem foldIntel_conv (hist : List HistMsg) (s : Session) :
    (hist.foldl historyIntelStep s).conversation = s.conversation := by
  induction hist generalizing s with
  | nil => rfl
  | cons a l ih => rw [List.foldl_cons, ih, historyIntelStep_conv]

theorem foldDetect_count (hist : List HistMsg) (s : Session) :
    (hist.foldl historyDetectStep s).messages_exchanged = s.messages_exchanged := by
  induction hist generalizing s with
  | nil => rfl
  | cons a l ih => rw [List.foldl_cons, ih, historyDetectStep_count]

theorem foldDetect_conv (hist : List HistMsg) (s : Session) :
    (hist.foldl historyDetectStep s).conversation = s.conversation := by
  induction hist generalizing s with
  | nil => rfl
  | cons a l ih => rw [List.foldl_cons, ih, historyDetectStep_conv]

/-- History lists made of scammer-then-user pairs (the shape the seeding loop
assumes: each scammer message opens the entry its user reply completes). -/
inductive PairedHist : List HistMsg → Prop
  | nil : PairedHist []
  | cons (a b : HistMsg) (t : List HistMsg) :
      a.sender = "scammer" → b.sender = "user" → PairedHist t →
      PairedHist (a :: b :: t)

theorem seedStep_scammer {s : Session} {h : HistMsg} (ha : h.sender = "scammer") :
    seedStep s h = { s with conversation :=
      s.conversation ++ [{ scammer := h.text, agent := [] }] } := by
  unfold seedStep; rw [if_pos ha]

theorem seedStep_user_count {s : Session} {h : HistMsg} (hb : h.sender = "user") :
    (seedStep s h).messages_exchanged = s.messages_exchanged + 1 := by
  unfold seedStep
  rw [if_neg (by rw [hb]; decide), if_pos hb]
  dsimp only
  split <;> rfl

theorem seedStep_user_convlen {s : Session} {h : HistMsg} (hb : h.sender = "user")
    (hne : s.conversation ≠ []) :
    (seedStep s h).conversation.length = s.conversation.length := by
  unfold seedStep
  rw [if_neg (by rw [hb]; decide), if_pos hb]
  dsimp only
  rw [dif_pos hne]
  dsimp only
  rw [List.length_append, List.length_dropLast]
  have : s.conversation.length ≠ 0 := fun hz => hne (List.length_eq_zero.mp hz)
  simp
  omega

/-- Seeding a paired history preserves the turn-counter / log-length
equality: each scammer entry adds a log entry, each user entry adds a turn. -/
theorem seedFold_inv {hist : List HistMsg} (hp : PairedHist hist) :
    ∀ {s : Session}, s.messages_exchanged = s.conversation.length →
      (hist.foldl seedStep s).messages_exchanged
        = (hist.foldl seedStep s).conversation.length := by
  induction hp with
  | nil => intro s h; exact h
  | cons a b t ha hb hp ih =>
    intro s h
    rw [List.foldl_cons, List.foldl_cons]
    apply ih
    have h1 : seedStep s a = { s with conversation :=
        s.conversation ++ [{ scammer := a.text, agent := [] }] } := seedStep_scammer ha
    have hne : (seedStep s a).conversation ≠ [] := by rw [h1]; simp
    rw [seedStep_user_count hb, seedStep_user_convlen hb hne, h1]
    simp [h]

/-- The history block preserves the turn-counter / log-length equality for
paired histories. -/
theorem processHistory_inv {hist : List HistMsg} (hp : PairedHist hist)
    {s : Session} (h : s.messages_exchanged = s.conversation.length) :
    (processHistory s hist).messages_exchanged
      = (processHistory s hist).conversation.length := by
  unfold processHistory
  split
  · exact h
  · dsimp only
    split
    · refine seedFold_inv hp ?_
      rw [foldDetect_count, foldDetect_conv, foldIntel_count, foldIntel_conv]
      exact h
    · rw [foldDetect_count, foldDetect_conv, foldIntel_count, foldIntel_conv]
      exact h

/-! ## Concrete inputs used by counterexamples and witnesses -/

/-- Environment with the Groq client unavailable (fallback replies). -/
def envNoLlm : Env :=
  { groqAvailable := false, genReply := none, personaChoice := "", suspicionIdx := 0 }

/-- Environment whose generator леaks a forbidden phrase. -/
def envForbidden : Env :=
  { groqAvailable := true,
    genReply := some (toL "As an AI, I cannot assist with that."),
    personaChoice := "", suspicionIdx := 0 }

/-- A plain scam-keyword message request with no history. -/
def reqOtp : Request := { message := toL "otp", history := [] }

/-- A request carrying an unbalanced (user-only) history. -/
def reqUserHist : Request :=
  { message := toL "otp", history := [{ sender := "user", text := toL "hi" }] }

/-- An empty-message request carrying scam history. -/
def reqEmptyWithHist : Request :=
  { message := [], history := [{ sender := "scammer", text := toL "urgent verify otp" }] }

/-- An empty-message request with no history. -/
def reqEmpty : Request := { message := [], history := [] }

/-! ## Claims C1, C4, C9, C10 -/

/-- Counterexample to claim C1 as stated: six turns of the message "otp"
drive one session past the reporting threshold, and the reporting
collaborator is invoked on turn 5 and again on turn 6 — more than once over
the session's lifetime. -/
theorem callback_fired_twice :
    ¬ ((runSeq envNoLlm (List.replicate 6 reqOtp)).2 ≤ 1) := by decide

/-- Claim C1 (amended): in the live path the reporting collaborator is
invoked on every turn's evaluation where the session is detected and the
turn counter has reached the MIN_MESSAGES floor — the report-sent flag does
not guard this path (only the hard-cap path checks it), so the callback
fires on every such turn rather than at most once. -/
theorem callback_every_eligible_turn (env : Env) (req : Request) (s : Session)
    (hm : stripWs req.message ≠ []) (hcap : s.messages_exchanged < MAX_MESSAGES) :
    ((honeypot env req s).callbackFired = true
      ↔ ((honeypot env req s).session.scam_detected = true
          ∧ MIN_MESSAGES ≤ (honeypot env req s).session.messages_exchanged)) := by
  unfold honeypot
  rw [if_neg (by omega)]
  dsimp only
  rw [if_neg hm]
  split
  · rename_i hcond
    exact ⟨fun _ => ⟨hcond.1, hcond.2⟩, fun _ => rfl⟩
  · rename_i hcond
    constructor
    · intro hf; exact absurd hf (by simp)
    · intro hr; exact absurd ⟨hr.1, hr.2⟩ hcond

/-- Witness for the amended C1 at a fresh session and the message "otp". -/
theorem callback_every_eligible_turn_witness :
    ((honeypot envNoLlm reqOtp initSession).callbackFired = true
      ↔ ((honeypot envNoLlm reqOtp initSession).session.scam_detected = true
          ∧ MIN_MESSAGES ≤ (honeypot envNoLlm reqOtp initSession).session.messages_exchanged)) :=
  callback_every_eligible_turn envNoLlm reqOtp initSession (by decide) (by decide)

/-- Counterexample to claim C4 as stated: a first request whose history is a
single user-sender entry increments the turn counter without creating a log
entry, so after processing the session has 2 turns but 1 log entry. -/
theorem seeding_breaks_counter_log_equality :
    ¬ ((honeypot envNoLlm reqUserHist initSession).session.messages_exchanged
      = (honeypot envNoLlm reqUserHist initSession).session.conversation.length) := by
  decide

/-- Claim C4 (amended): after every processed request the session's turn
counter equals the number of conversation-log entries, provided any
caller-supplied history consists of alternating scammer-then-user pairs
(in particular, for every request without history); a lone user-sender
history entry breaks the equality. -/
theorem turn_counter_eq_log (env : Env) (req : Request) (s : Session)
    (hp : PairedHist req.history)
    (h : s.messages_exchanged = s.conversation.length) :
    (honeypot env req s).session.messages_exchanged
      = (honeypot env req s).session.conversation.length := by
  unfold honeypot
  split
  · split
    · exact h
    · exact h
  · dsimp only
    split
    · exact processHistory_inv hp h
    · have hph := processHistory_inv hp h
      have hc := mainPhase_count env (processHistory s req.history) (stripWs req.message)
      have hl := mainPhase_convlen env (processHistory s req.history) (stripWs req.message)
      split
      · show (mainPhase env (processHistory s req.history)
              (stripWs req.message)).1.messages_exchanged
          = (mainPhase env (processHistory s req.history)
              (stripWs req.message)).1.conversation.length
        rw [hc, hl, hph]
      · show (mainPhase env (processHistory s req.history)
              (stripWs req.message)).1.messages_exchanged
          = (mainPhase env (processHistory s req.history)
              (stripWs req.message)).1.conversation.length
        rw [hc, hl, hph]

/-- Witness for the amended C4: a history-free request on a fresh session. -/
theorem turn_counter_eq_log_witness :
    (honeypot envNoLlm reqOtp initSession).session.messages_exchanged
      = (honeypot envNoLlm reqOtp initSession).session.conversation.length :=
  turn_counter_eq_log envNoLlm reqOtp initSession PairedHist.nil rfl

set_option maxRecDepth 40000 in
/-- No fallback reply contains a forbidden phrase. -/
theorem fallback_clean :
    ∀ r ∈ NAIVE_RESPONSES,
      FORBIDDEN_PATTERNS.any (fun p => containsSub p (lowerStr r)) = false := by decide

set_option maxRecDepth 40000 in
/-- Every fallback reply respects the 400-character ceiling. -/
theorem fallback_short : ∀ r ∈ NAIVE_RESPONSES, r.length ≤ 400 := by decide

theorem get_agent_response_mem (s : Session) : get_agent_response s ∈ NAIVE_RESPONSES := by
  unfold get_agent_response
  have hlt : s.messages_exchanged % NAIVE_RESPONSES.length < NAIVE_RESPONSES.length :=
    Nat.mod_lt _ (by decide)
  rw [List.getD_eq_getElem _ _ hlt]
  exact List.getElem_mem hlt

/-- Claim C9: a generator output that (after stripping) contains a forbidden
phrase or exceeds the 400-character ceiling is never returned; the reply is
the fallback-rotation element indexed by the turn counter modulo the
rotation length. -/
theorem sanitizer_substitutes_fallback (env : Env) (s : Session) (raw : Str)
    (hg : env.groqAvailable = true) (hr : env.genReply = some raw)
    (hbad : FORBIDDEN_PATTERNS.any (fun p => containsSub p (lowerStr (stripWs raw))) = true
      ∨ 400 < (stripWs raw).length) :
    (get_llm_response env s).2
        = NAIVE_RESPONSES.getD (s.messages_exchanged % NAIVE_RESPONSES.length) []
      ∧ (get_llm_response env s).2 ≠ stripWs raw := by
  have hres : (get_llm_response env s).2 = get_agent_response (setPersona env s) := by
    unfold get_llm_response
    rw [if_neg (by rw [hg]; simp)]
    dsimp only
    rw [hr]
    dsimp only
    by_cases hforb :
        FORBIDDEN_PATTERNS.any (fun p => containsSub p (lowerStr (stripWs raw))) = true
    · rw [if_pos hforb]
    · rw [if_neg hforb]
      have hlong : 400 < (stripWs raw).length := by
        rcases hbad with hb | hb
        · exact absurd hb hforb
        · exact hb
      rw [if_pos hlong]
  have hmem : get_agent_response (setPersona env s) ∈ NAIVE_RESPONSES :=
    get_agent_response_mem _
  have hidx : get_agent_response (setPersona env s)
      = NAIVE_RESPONSES.getD (s.messages_exchanged % NAIVE_RESPONSES.length) [] := by
    unfold get_agent_response
    rw [setPersona_count]
  refine ⟨by rw [hres, hidx], ?_⟩
  rw [hres]
  intro heq
  rcases hbad with hforb | hlong
  · have hclean := fallback_clean _ hmem
    rw [heq, hforb] at hclean
    cases hclean
  · have hshort := fallback_short _ hmem
    rw [heq] at hshort
    omega

/-- Witness for C9: a forbidden-phrase generator output on a fresh session. -/
theorem sanitizer_substitutes_fallback_witness :
    (get_llm_response envForbidden initSession).2
        = NAIVE_RESPONSES.getD
            (initSession.messages_exchanged % NAIVE_RESPONSES.length) []
      ∧ (get_llm_response envForbidden initSession).2
          ≠ stripWs (toL "As an AI, I cannot assist with that.") :=
  sanitizer_substitutes_fallback envForbidden initSession
    (toL "As an AI, I cannot assist with that.") rfl rfl (Or.inl (by decide))

/-- Counterexample to claim C10 as stated: an empty-message request that
carries scam history mutates the session (the detected flag flips to true)
before the empty-message check, even though the neutral greeting is
returned. -/
theorem empty_message_with_history_mutates :
    (honeypot envNoLlm reqEmptyWithHist initSession).session.scam_detected = true
      ∧ initSession.scam_detected = false
      ∧ (honeypot envNoLlm reqEmptyWithHist initSession).reply = GREETING_REPLY := by
  decide

/-- Claim C10 (amended): an empty-message request carrying no conversation
history, on a session below the hard cap, returns the neutral greeting and
leaves the turn counter, evidence record, red-flag set, detected flag and
conversation log unchanged; with caller-supplied history the history replay
mutates state before the empty-message check. -/
theorem empty_message_no_state_change (env : Env) (req : Request) (s : Session)
    (hm : stripWs req.message = []) (hh : req.history = [])
    (hcap : s.messages_exchanged < MAX_MESSAGES) :
    (honeypot env req s).reply = GREETING_REPLY
      ∧ (honeypot env req s).session.messages_exchanged = s.messages_exchanged
      ∧ (honeypot env req s).session.extracted_intelligence = s.extracted_intelligence
      ∧ (honeypot env req s).session.red_flags = s.red_flags
      ∧ (honeypot env req s).session.scam_detected = s.scam_detected
      ∧ (honeypot env req s).session.conversation = s.conversation := by
  have hout : honeypot env req s
      = { session := s, reply := GREETING_REPLY, callbackFired := false } := by
    unfold honeypot
    rw [if_neg (by omega), hh]
    dsimp only
    rw [show processHistory s [] = s from by unfold processHistory; simp]
    rw [if_pos hm]
  rw [hout]
  exact ⟨rfl, rfl, rfl, rfl, rfl, rfl⟩

/-! ## Scanner analysis for the phone / bank cross-exclusion (claim C3)

The development below proves that the phone and bank evidence sets can never
share a string: phone entries are either `+`-prefixed or bare ten-digit
strings, while every bank entry has length 11–18 — a ten-digit bank
candidate always coincides with a phone capture of the same text, whose
digits (or last ten digits) then exclude it. -/

theorem sep_not_digit {c : Char} (h : isSepC c = true) : isDigitC c = false := by
  unfold isSepC isWsC at h
  simp only [Bool.or_eq_true, beq_iff_eq] at h
  rcases h with ((((((rfl | rfl) | rfl) | rfl) | rfl) | rfl) | rfl) <;> decide

theorem digit_not_sep {c : Char} (h : isDigitC c = true) : isSepC c = false := by
  cases hs : isSepC c
  · rfl
  · rw [sep_not_digit hs] at h
    cases h

theorem digit_not_ws {c : Char} (h : isDigitC c = true) : isWsC c = false := by
  have := digit_not_sep h
  unfold isSepC at this
  exact (Bool.or_eq_false_iff.mp this).1

theorem digit_word {c : Char} (h : isDigitC c = true) : isWordC c = true := by
  unfold isWordC
  unfold isDigitC at h
  rw [h]
  simp

/-! Lemmas about `sub`, `digitAt` and `runLen`. -/

theorem digitAt_some {t : Str} {p : Nat} (h : digitAt t p = true) :
    ∃ c, t.get? p = some c ∧ isDigitC c = true := by
  unfold digitAt at h
  cases hg : t.get? p with
  | none => rw [hg] at h; cases h
  | some c => rw [hg] at h; exact ⟨c, rfl, by simpa using h⟩

theorem digitAt_lt {t : Str} {p : Nat} (h : digitAt t p = true) : p < t.length := by
  obtain ⟨c, hg, _⟩ := digitAt_some h
  rw [List.get?_eq_getElem?] at hg
  exact (List.getElem?_eq_some.mp hg).1

theorem wordAt_of_digitAt {t : Str} {p : Nat} (h : digitAt t p = true) :
    wordAt t p = true := by
  obtain ⟨c, hg, hd⟩ := digitAt_some h
  unfold wordAt
  rw [hg]
  simpa using digit_word hd

theorem wordAt_of_charIs {t : Str} {p : Nat} {c : Char} (h : charIs t p c = true)
    (hw : isWordC c = true) : wordAt t p = true := by
  unfold charIs at h
  unfold wordAt
  rw [beq_iff_eq.mp h]
  simpa using hw

theorem charIs_get {t : Str} {p : Nat} {c : Char} (h : charIs t p c = true) :
    t.get? p = some c := beq_iff_eq.mp h

theorem digitsFrom_elem {t : Str} {i n k : Nat} (h : digitsFrom t i n = true)
    (hk : k < n) : digitAt t (i + k) = true := by
  unfold digitsFrom at h
  exact List.all_eq_true.mp h k (List.mem_range.mpr hk)

theorem boundary_wordfree {t : Str} {j : Nat} (hj : j ≠ 0)
    (h : boundaryAt t j = true) : wordAt t (j - 1) = false := by
  unfold boundaryAt at h
  rcases Bool.or_eq_true_iff.mp h with h0 | hw
  · exact absurd (by simpa using h0) hj
  · simpa using hw

theorem sub_cons {t : Str} {i : Nat} {c : Char} (h : t.get? i = some c) (n : Nat) :
    sub t i (n + 1) = c :: sub t (i + 1) n := by
  rw [List.get?_eq_getElem?] at h
  obtain ⟨hlt, hc⟩ := List.getElem?_eq_some.mp h
  unfold sub
  rw [List.drop_eq_getElem_cons hlt, hc]
  rfl

theorem sub_zero (t : Str) (i : Nat) : sub t i 0 = [] := rfl

theorem sub_append (t : Str) (i a b : Nat) :
    sub t i (a + b) = sub t i a ++ sub t (i + a) b := by
  unfold sub
  rw [List.take_add, List.drop_drop]

theorem sub_length {t : Str} {i n : Nat} (h : i + n ≤ t.length) :
    (sub t i n).length = n := by
  unfold sub
  rw [List.length_take, List.length_drop]
  omega

theorem mem_sub {t : Str} {i n : Nat} {x : Char} (h : x ∈ sub t i n) :
    ∃ k, k < n ∧ t.get? (i + k) = some x := by
  obtain ⟨k, hk⟩ := List.mem_iff_getElem?.mp h
  have hkn : k < n := by
    by_contra hge
    rw [show sub t i n = (t.drop i).take n from rfl,
      List.getElem?_take_eq_none (by omega)] at hk
    cases hk
  refine ⟨k, hkn, ?_⟩
  rw [show sub t i n = (t.drop i).take n from rfl,
    List.getElem?_take_of_lt hkn, List.getElem?_drop] at hk
  rw [List.get?_eq_getElem?]
  exact hk

theorem sub_all_digits {t : Str} {i n : Nat}
    (h : ∀ k, k < n → digitAt t (i + k) = true) :
    (sub t i n).all isDigitC = true := by
  rw [List.all_eq_true]
  intro x hx
  obtain ⟨k, hk, hg⟩ := mem_sub hx
  obtain ⟨c, hg', hd⟩ := digitAt_some (h k hk)
  rw [hg] at hg'
  cases hg'
  exact hd

theorem sub_digits_length {t : Str} {i n : Nat} (hn : n ≠ 0)
    (h : ∀ k, k < n → digitAt t (i + k) = true) :
    (sub t i n).length = n := by
  have hlast := digitAt_lt (h (n - 1) (by omega))
  exact sub_length (by omega)

theorem takeWhileLen_elem {f : Char → Bool} :
    ∀ {l : Str} {k : Nat}, k < takeWhileLen f l → (l.get? k).any f = true := by
  intro l
  induction l with
  | nil => intro k hk; unfold takeWhileLen at hk; omega
  | cons c r ih =>
    intro k hk
    unfold takeWhileLen at hk
    by_cases hc : f c
    · rw [if_pos hc] at hk
      cases k with
      | zero => simpa using hc
      | succ k' => exact ih (by omega)
    · rw [if_neg hc] at hk
      omega

theorem takeWhileLen_max {f : Char → Bool} :
    ∀ l : Str, (l.get? (takeWhileLen f l)).any f = false := by
  intro l
  induction l with
  | nil => rfl
  | cons c r ih =>
    unfold takeWhileLen
    by_cases hc : f c
    · rw [if_pos hc]
      exact ih
    · rw [if_neg hc]
      simpa using hc

theorem runLen_elem {f : Char → Bool} {t : Str} {i k : Nat}
    (hk : k < runLen f t i) : (t.get? (i + k)).any f = true := by
  unfold runLen at hk
  have := takeWhileLen_elem hk
  rwa [List.get?_eq_getElem?, List.getElem?_drop, ← List.get?_eq_getElem?] at this

theorem runLen_max (f : Char → Bool) (t : Str) (i : Nat) :
    (t.get? (i + runLen f t i)).any f = false := by
  have := takeWhileLen_max (f := f) (t.drop i)
  unfold runLen
  rwa [List.get?_eq_getElem?, List.getElem?_drop, ← List.get?_eq_getElem?] at this

/-! Anatomy of the phone and bank matchers. -/

theorem tryAlt2_some {t : Str} {i l : Nat} (h : tryAlt2 t i = some l) :
    l = 10 ∧ boundaryAt t i = true ∧ digitsFrom t i 10 = true
      ∧ wordAt t (i + 10) = false := by
  unfold tryAlt2 at h
  split at h
  · rename_i hc
    simp only [Bool.and_eq_true, Bool.not_eq_true'] at hc
    cases h
    exact ⟨rfl, hc.1.1, hc.1.2, hc.2⟩
  · cases h

theorem tryAlt2_intro {t : Str} {i : Nat} (hb : boundaryAt t i = true)
    (hd : digitsFrom t i 10 = true) (hw : wordAt t (i + 10) = false) :
    tryAlt2 t i = some 10 := by
  unfold tryAlt2
  rw [if_pos (by rw [hb, hd, hw]; rfl)]

theorem tryAlt1_some {t : Str} {i l : Nat} (h : tryAlt1 t i = some l) :
    charIs t i '+' = true ∧ charIs t (i + 1) '9' = true ∧ charIs t (i + 2) '1' = true
      ∧ ((l = 14 ∧ (t.get? (i + 3)).any isSepC = true ∧ digitsFrom t (i + 4) 10 = true)
        ∨ (l = 13 ∧ digitsFrom t (i + 3) 10 = true)) := by
  unfold tryAlt1 at h
  split at h
  · rename_i hc
    simp only [Bool.and_eq_true] at hc
    refine ⟨hc.1.1, hc.1.2, hc.2, ?_⟩
    split at h
    · rename_i hsep
      split at h
      · rename_i hd
        cases h
        exact Or.inl ⟨rfl, hsep, hd⟩
      · cases h
    · split at h
      · rename_i hd
        cases h
        exact Or.inr ⟨rfl, hd⟩
      · cases h
  · cases h

theorem tryPhone_cases {t : Str} {i l : Nat} (h : tryPhone t i = some l) :
    tryAlt1 t i = some l ∨ tryAlt2 t i = some l := by
  unfold tryPhone at h
  cases h1 : tryAlt1 t i with
  | none =>
    rw [h1] at h
    have hv : tryAlt2 t i = some l := h
    exact Or.inr hv
  | some v =>
    rw [h1] at h
    have hv : some v = some l := h
    cases hv
    exact Or.inl rfl

theorem tryBank_some {t : Str} {j r : Nat} (h : tryBank t j = some r) :
    boundaryAt t j = true ∧ 10 ≤ r ∧ r ≤ 18 ∧ runLen isDigitC t j = r
      ∧ wordAt t (j + r) = false := by
  unfold tryBank at h
  dsimp only at h
  split at h
  · rename_i hc
    simp only [Bool.and_eq_true, decide_eq_true_eq, Bool.not_eq_true'] at hc
    cases h
    exact ⟨hc.1.1.1, hc.1.1.2, hc.1.2, rfl, hc.2⟩
  · cases h

/-- The digits of a bank match. -/
theorem tryBank_digits {t : Str} {j r : Nat} (h : tryBank t j = some r) :
    ∀ k, k < r → digitAt t (j + k) = true := by
  obtain ⟨_, _, _, hrun, _⟩ := tryBank_some h
  intro k hk
  have hk' : k < runLen isDigitC t j := by omega
  exact runLen_elem hk'

/-- A ten-digit bank match makes the phone matcher's second alternative fire
at the same position (and the first alternative fail, since the position
holds a digit, not `+`). -/
theorem tryPhone_at_bank10 {t : Str} {j : Nat} (h : tryBank t j = some 10) :
    tryPhone t j = some 10 := by
  obtain ⟨hb, _, _, hrun, hw⟩ := tryBank_some h
  have hdig : ∀ k, k < 10 → digitAt t (j + k) = true := tryBank_digits h
  have hd0 : digitAt t j = true := by simpa using hdig 0 (by omega)
  obtain ⟨c, hg, hc⟩ := digitAt_some hd0
  have halt1 : tryAlt1 t j = none := by
    unfold tryAlt1
    rw [if_neg]
    intro hcon
    simp only [Bool.and_eq_true] at hcon
    have := charIs_get hcon.1.1
    rw [hg] at this
    cases this
    cases hc
  have hdf : digitsFrom t j 10 = true := by
    unfold digitsFrom
    rw [List.all_eq_true]
    intro k hk
    simpa using hdig k (by simpa using List.mem_range.mp hk)
  unfold tryPhone
  rw [halt1, tryAlt2_intro hb hdf hw]
  rfl

/-! Scan lemmas: membership anatomy and the reach/cover dichotomy. -/

theorem scanGAux_mem {tf : Nat → Option Nat} {L : Nat} :
    ∀ {fuel i p l : Nat}, (p, l) ∈ scanGAux tf L fuel i → tf p = some l ∧ i ≤ p := by
  intro fuel
  induction fuel with
  | zero => intro i p l h; cases h
  | succ fuel ih =>
    intro i p l h
    unfold scanGAux at h
    split at h
    · cases htf : tf i with
      | none =>
        rw [htf] at h
        have := ih h
        exact ⟨this.1, by omega⟩
      | some v =>
        rw [htf] at h
        rcases List.mem_cons.mp h with he | ht
        · obtain ⟨h1, h2⟩ := Prod.mk.inj he
          subst h1
          subst h2
          exact ⟨htf, Nat.le_refl _⟩
        · have := ih ht
          exact ⟨this.1, by omega⟩
    · cases h

theorem scanG_mem {tf : Nat → Option Nat} {L i p l : Nat}
    (h : (p, l) ∈ scanG tf L i) : tf p = some l ∧ i ≤ p :=
  scanGAux_mem h

/-- Reach-or-cover: when the pattern matches at `j`, the scan starting at or
before `j` either emits the match at `j` itself or has already emitted a
match that covers position `j`. -/
theorem scanGAux_reach {tf : Nat → Option Nat} {L : Nat} :
    ∀ {fuel i j lj : Nat}, L - i ≤ fuel → i ≤ j → j < L → tf j = some lj →
      ((j, lj) ∈ scanGAux tf L fuel i
        ∨ ∃ p l, (p, l) ∈ scanGAux tf L fuel i ∧ p < j ∧ j < p + l) := by
  intro fuel
  induction fuel with
  | zero => intro i j lj hfu hij hjL _; omega
  | succ fuel ih =>
    intro i j lj hfu hij hjL hj
    unfold scanGAux
    rw [if_pos (by omega)]
    cases htf : tf i with
    | none =>
      have hne : i ≠ j := by
        intro he
        rw [he, hj] at htf
        cases htf
      have := ih (i := i + 1) (by omega) (by omega) hjL hj
      rcases this with hm | ⟨p, l, hm, hpl⟩
      · exact Or.inl hm
      · exact Or.inr ⟨p, l, hm, hpl⟩
    | some l =>
      by_cases hij' : i = j
      · subst hij'
        rw [hj] at htf
        cases htf
        exact Or.inl (List.mem_cons_self _ _)
      · have hilt : i < j := by omega
        by_cases hcov : j < i + l
        · exact Or.inr ⟨i, l, List.mem_cons_self _ _, hilt, hcov⟩
        · have hstep : i + max l 1 ≤ j := by
            rcases Nat.le_total l 1 with h1 | h1
            · rw [Nat.max_eq_right h1]; omega
            · rw [Nat.max_eq_left h1]; omega
          have := ih (i := i + max l 1) (by omega) hstep hjL hj
          rcases this with hm | ⟨p, l', hm, hpl⟩
          · exact Or.inl (List.mem_cons_of_mem _ hm)
          · exact Or.inr ⟨p, l', List.mem_cons_of_mem _ hm, hpl⟩

theorem scanG_reach {tf : Nat → Option Nat} {L j lj : Nat}
    (hjL : j < L) (hj : tf j = some lj) :
    ((j, lj) ∈ scanG tf L 0 ∨ ∃ p l, (p, l) ∈ scanG tf L 0 ∧ p < j ∧ j < p + l) :=
  scanGAux_reach (by omega) (by omega) hjL hj

/-! String-shape lemmas for phone matches. -/

theorem dropWhile_eq_self_of_head {l : Str} {p : Char → Bool}
    (h : ∀ c, l.head? = some c → p c = false) : l.dropWhile p = l := by
  cases l with
  | nil => rfl
  | cons a r =>
    rw [List.dropWhile_cons, if_neg (by simp [h a rfl])]

theorem stripWs_eq_self {l : Str}
    (h1 : ∀ c, l.head? = some c → isWsC c = false)
    (h2 : ∀ c, l.getLast? = some c → isWsC c = false) : stripWs l = l := by
  unfold stripWs
  rw [dropWhile_eq_self_of_head h1]
  rw [dropWhile_eq_self_of_head
    (fun c hc => h2 c (by rwa [List.head?_reverse] at hc))]
  exact List.reverse_reverse l

theorem all_digits_stripWs {l : Str} (h : l.all isDigitC = true) : stripWs l = l := by
  refine stripWs_eq_self (fun c hc => ?_) (fun c hc => ?_)
  · exact digit_not_ws (List.all_eq_true.mp h c (List.mem_of_mem_head? hc))
  · exact digit_not_ws (List.all_eq_true.mp h c (List.mem_of_getLast?_eq_some hc))

theorem all_digits_removeSep {l : Str} (h : l.all isDigitC = true) : removeSep l = l := by
  unfold removeSep
  refine List.filter_eq_self.mpr (fun a ha => ?_)
  have := List.all_eq_true.mp h a ha
  simp [digit_not_sep this]

theorem all_digits_digitsOf {l : Str} (h : l.all isDigitC = true) : digitsOf l = l := by
  unfold digitsOf
  exact List.filter_eq_self.mpr (fun a ha => List.all_eq_true.mp h a ha)

/-- A ten-digit bank candidate is always shadowed by a phone capture of the
same text: the phone scan either emits the same ten digits, or a `+91`-form
match whose cleaned form is `+91` followed by those ten digits. -/
theorem phone_covers_bank10 {t : Str} {j : Nat} (hb : tryBank t j = some 10) :
    ∃ m ∈ findallPhone t,
      removeSep (stripWs m) = sub t j 10
        ∨ removeSep (stripWs m) = '+' :: '9' :: '1' :: sub t j 10 := by
  obtain ⟨hbound, _, _, hrun, hword⟩ := tryBank_some hb
  have hdig : ∀ k, k < 10 → digitAt t (j + k) = true := tryBank_digits hb
  have hphone : tryPhone t j = some 10 := tryPhone_at_bank10 hb
  have hjL : j < t.length := by
    have := hdig 0 (by omega)
    exact digitAt_lt (by simpa using this)
  rcases scanG_reach hjL hphone with hm | ⟨p, l, hm, hpj, hjpl⟩
  · refine ⟨sub t j 10, List.mem_map.mpr ⟨(j, 10), hm, rfl⟩, Or.inl ?_⟩
    have hall : (sub t j 10).all isDigitC = true := sub_all_digits hdig
    rw [all_digits_stripWs hall, all_digits_removeSep hall]
  · obtain ⟨htf, _⟩ := scanG_mem hm
    have hq : wordAt t (j - 1) = false := boundary_wordfree (by omega) hbound
    rcases tryPhone_cases htf with h1 | h2
    · obtain ⟨hplus, h9, h1c, hca⟩ := tryAlt1_some h1
      rcases hca with ⟨rfl, hsep, hdigs⟩ | ⟨rfl, hdigs⟩
      · -- a `+91<sep>dddddddddd` match covering position j
        by_cases hq0 : j - 1 = p
        · exfalso
          have hj1 : j = p + 1 := by omega
          have hd : digitAt t (p + 3) = true := by
            have := hdig 2 (by omega)
            rwa [hj1, show p + 1 + 2 = p + 3 from by omega] at this
          obtain ⟨c, hg, hc⟩ := digitAt_some hd
          rw [hg] at hsep
          have hcs : isSepC c = true := by simpa using hsep
          rw [sep_not_digit hcs] at hc
          cases hc
        · by_cases hq1 : j - 1 = p + 1
          · exfalso
            have hw9 := wordAt_of_charIs h9 (by decide)
            rw [← hq1, hq] at hw9
            cases hw9
          · by_cases hq2 : j - 1 = p + 2
            · exfalso
              have hw1 := wordAt_of_charIs h1c (by decide)
              rw [← hq2, hq] at hw1
              cases hw1
            · by_cases hq3 : j - 1 = p + 3
              · -- the good case: j = p + 4; the match is +91<sep> then the run
                have hj4 : j = p + 4 := by omega
                rw [hj4]
                refine ⟨sub t p 14, List.mem_map.mpr ⟨(p, 14), hm, rfl⟩, Or.inr ?_⟩
                obtain ⟨c, hgc, hcsep⟩ :
                    ∃ c, t.get? (p + 3) = some c ∧ isSepC c = true := by
                  cases hgx : t.get? (p + 3) with
                  | none => rw [hgx] at hsep; cases hsep
                  | some c => rw [hgx] at hsep; exact ⟨c, rfl, by simpa using hsep⟩
                have hall_b : (sub t (p + 4) 10).all isDigitC = true :=
                  sub_all_digits (fun k hk => digitsFrom_elem hdigs hk)
                have h4 : sub t p 4 = ['+', '9', '1', c] := by
                  rw [sub_cons (charIs_get hplus) 3, sub_cons (charIs_get h9) 2,
                    sub_cons (charIs_get h1c) 1, sub_cons hgc 0, sub_zero]
                have hsplit : sub t p 14 = '+' :: '9' :: '1' :: c :: sub t (p + 4) 10 := by
                  have e := sub_append t p 4 10
                  rw [h4] at e
                  exact e
                have hd13 : digitAt t (p + 13) = true := by
                  have := digitsFrom_elem hdigs (k := 9) (by omega)
                  rwa [show p + 4 + 9 = p + 13 from by omega] at this
                obtain ⟨d, hgd, hdd⟩ := digitAt_some hd13
                have hlastm : (sub t p 14).getLast? = some d := by
                  have e := sub_append t p 13 1
                  rw [sub_cons hgd 0, sub_zero] at e
                  rw [e]
                  exact List.getLast?_concat _
                have hstrip : stripWs (sub t p 14) = sub t p 14 := by
                  refine stripWs_eq_self (fun c0 hc0 => ?_) (fun c0 hc0 => ?_)
                  · rw [hsplit] at hc0
                    have : c0 = '+' := by simpa using hc0.symm
                    rw [this]
                    decide
                  · rw [hlastm] at hc0
                    have : c0 = d := by simpa using hc0.symm
                    rw [this]
                    exact digit_not_ws hdd
                rw [hstrip, hsplit]
                unfold removeSep
                rw [List.filter_cons, List.filter_cons, List.filter_cons, List.filter_cons]
                rw [if_pos (by decide), if_pos (by decide), if_pos (by decide),
                  if_neg (by rw [hcsep]; decide)]
                have hrs : List.filter (fun c => !isSepC c) (sub t (p + 4) 10)
                    = sub t (p + 4) 10 := all_digits_removeSep hall_b
                rw [hrs]
              · exfalso
                have hd : digitAt t (j - 1) = true := by
                  have := digitsFrom_elem hdigs (k := j - 1 - (p + 4)) (by omega)
                  rwa [show p + 4 + (j - 1 - (p + 4)) = j - 1 from by omega] at this
                rw [wordAt_of_digitAt hd] at hq
                cases hq
      · -- a `+91dddddddddd` match (no separator) cannot cover position j
        exfalso
        by_cases hq0 : j - 1 = p
        · have hj1 : j = p + 1 := by omega
          have hd : digitAt t (p + 11) = true := by
            have := digitsFrom_elem hdigs (k := 8) (by omega)
            rwa [show p + 3 + 8 = p + 11 from by omega] at this
          have hw : wordAt t (j + 10) = true := by
            rw [hj1, show p + 1 + 10 = p + 11 from by omega]
            exact wordAt_of_digitAt hd
          rw [hword] at hw
          cases hw
        · by_cases hq1 : j - 1 = p + 1
          · have hw9 := wordAt_of_charIs h9 (by decide)
            rw [← hq1, hq] at hw9
            cases hw9
          · by_cases hq2 : j - 1 = p + 2
            · have hw1 := wordAt_of_charIs h1c (by decide)
              rw [← hq2, hq] at hw1
              cases hw1
            · have hd : digitAt t (j - 1) = true := by
                have := digitsFrom_elem hdigs (k := j - 1 - (p + 3)) (by omega)
                rwa [show p + 3 + (j - 1 - (p + 3)) = j - 1 from by omega] at this
              rw [wordAt_of_digitAt hd] at hq
              cases hq
    · -- a bare ten-digit match cannot strictly cover position j
      exfalso
      obtain ⟨rfl, _, hdigs, _⟩ := tryAlt2_some h2
      have hd : digitAt t (j - 1) = true := by
        have := digitsFrom_elem hdigs (k := j - 1 - p) (by omega)
        rwa [show p + (j - 1 - p) = j - 1 from by omega] at this
      rw [wordAt_of_digitAt hd] at hq
      cases hq

/-! Shapes of stored phone and bank entries, and the cross-exclusion
invariant. -/

/-- Every stored phone entry is `+`-prefixed or a bare ten-digit string. -/
def phoneShape (p : Str) : Prop :=
  p.head? = some '+' ∨ (p.all isDigitC = true ∧ p.length = 10)

/-- Every stored bank entry is an 11–18 digit string. -/
def bankShape (b : Str) : Prop :=
  b.all isDigitC = true ∧ 11 ≤ b.length ∧ b.length ≤ 18

/-- The evidence invariant backing the phone / bank cross-exclusion. -/
def IntelInv (i : Intel) : Prop :=
  (∀ p ∈ i.phoneNumbers, phoneShape p) ∧ (∀ b ∈ i.bankAccounts, bankShape b)

theorem phone_match_shape {t m : Str} (hm : m ∈ findallPhone t) :
    phoneShape (stripWs m) ∧ phoneShape (removeSep (stripWs m)) := by
  obtain ⟨⟨p, l⟩, hmem, rfl⟩ := List.mem_map.mp hm
  obtain ⟨htf, _⟩ := scanG_mem hmem
  rcases tryPhone_cases htf with h1 | h2
  · obtain ⟨hplus, _, _, hca⟩ := tryAlt1_some h1
    have hshape : ∃ n d, l = n + 1 ∧ t.get? (p + n) = some d ∧ isDigitC d = true := by
      rcases hca with ⟨rfl, _, hdigs⟩ | ⟨rfl, hdigs⟩
      · have h13 : digitAt t (p + 13) = true := by
          have := digitsFrom_elem hdigs (k := 9) (by omega)
          rwa [show p + 4 + 9 = p + 13 from by omega] at this
        obtain ⟨d, hg, hd⟩ := digitAt_some h13
        exact ⟨13, d, rfl, hg, hd⟩
      · have h12 : digitAt t (p + 12) = true := by
          have := digitsFrom_elem hdigs (k := 9) (by omega)
          rwa [show p + 3 + 9 = p + 12 from by omega] at this
        obtain ⟨d, hg, hd⟩ := digitAt_some h12
        exact ⟨12, d, rfl, hg, hd⟩
    obtain ⟨n, d, rfl, hgd, hdd⟩ := hshape
    have hcons : sub t p (n + 1) = '+' :: sub t (p + 1) n := sub_cons (charIs_get hplus) n
    have hlast : (sub t p (n + 1)).getLast? = some d := by
      have e := sub_append t p n 1
      rw [sub_cons hgd 0, sub_zero] at e
      rw [e]
      exact List.getLast?_concat _
    have hstrip : stripWs (sub t p (n + 1)) = sub t p (n + 1) := by
      refine stripWs_eq_self (fun c0 hc0 => ?_) (fun c0 hc0 => ?_)
      · rw [hcons] at hc0
        have : c0 = '+' := by simpa using hc0.symm
        rw [this]
        decide
      · rw [hlast] at hc0
        have : c0 = d := by simpa using hc0.symm
        rw [this]
        exact digit_not_ws hdd
    rw [hstrip]
    constructor
    · exact Or.inl (by rw [hcons]; rfl)
    · refine Or.inl ?_
      rw [hcons]
      unfold removeSep
      rw [List.filter_cons, if_pos (by decide)]
      rfl
  · obtain ⟨rfl, _, hdigs, _⟩ := tryAlt2_some h2
    have hall : (sub t p 10).all isDigitC = true :=
      sub_all_digits (fun k hk => digitsFrom_elem hdigs hk)
    have hlen : (sub t p 10).length = 10 :=
      sub_digits_length (by omega) (fun k hk => digitsFrom_elem hdigs hk)
    rw [all_digits_stripWs hall, all_digits_removeSep hall]
    exact ⟨Or.inr ⟨hall, hlen⟩, Or.inr ⟨hall, hlen⟩⟩

theorem bank_match_shape {t b : Str} (hb : b ∈ findallBank t) :
    ∃ j r, tryBank t j = some r ∧ b = sub t j r
      ∧ b.all isDigitC = true ∧ b.length = r := by
  obtain ⟨⟨j, r⟩, hmem, rfl⟩ := List.mem_map.mp hb
  obtain ⟨htf, _⟩ := scanG_mem hmem
  have hd := tryBank_digits htf
  obtain ⟨_, h10, _, _, _⟩ := tryBank_some htf
  exact ⟨j, r, htf, rfl, sub_all_digits hd, sub_digits_length (by omega) hd⟩

/-- A ten-digit bank candidate is always excluded by the phone-digit filter:
the phone section of the same call records a capture whose digit sequence,
or its last ten digits, equals the candidate. -/
theorem bank10_filtered {t b : Str} (hb : b ∈ findallBank t) (hlen : b.length = 10)
    (phones : List Str) :
    inPhoneDigits b (phoneSection (findallPhone t) phones) = true := by
  obtain ⟨j, r, htf, hbe, hall, hlr⟩ := bank_match_shape hb
  have hr : r = 10 := by omega
  subst hr
  obtain ⟨m, hmmem, hcase⟩ := phone_covers_bank10 htf
  have hpn : removeSep (stripWs m) ∈ phoneSection (findallPhone t) phones :=
    phoneSection_post_clean hmmem
  unfold inPhoneDigits
  rw [List.any_eq_true]
  refine ⟨removeSep (stripWs m), hpn, ?_⟩
  rw [← hbe] at hcase
  rcases hcase with he | he
  · rw [he, all_digits_digitsOf hall]
    simp
  · rw [he]
    have hdig : digitsOf ('+' :: '9' :: '1' :: b) = '9' :: '1' :: b := by
      unfold digitsOf
      rw [List.filter_cons, List.filter_cons, List.filter_cons]
      rw [if_neg (by decide), if_pos (by decide), if_pos (by decide)]
      have : List.filter isDigitC b = b := all_digits_digitsOf hall
      rw [this]
    rw [hdig]
    have hlast : last10 ('9' :: '1' :: b) = b := by
      unfold last10
      have h2 : ('9' :: '1' :: b).length - 10 = 2 := by
        simp [hlen]
      rw [h2]
      rfl
    rw [hlast]
    simp

theorem IntelInv_extract {i : Intel} (h : IntelInv i) (t : Str) :
    IntelInv (extract_intelligence t i) := by
  constructor
  · intro p hp
    have hp' : p ∈ phoneSection (findallPhone t) i.phoneNumbers := hp
    rcases phoneSection_added hp' with hold | ⟨mt, hmt, hx⟩
    · exact h.1 p hold
    · have hs := phone_match_shape hmt
      rcases hx with rfl | rfl
      · exact hs.2
      · exact hs.1
  · intro b hbmem
    have hbmem' : b ∈ bankSection (findallBank t)
        (phoneSection (findallPhone t) i.phoneNumbers) i.bankAccounts := hbmem
    rcases bankSection_added hbmem' with hold | ⟨hmem, hfilt⟩
    · exact h.2 b hold
    · obtain ⟨j, r, htf, _, hall, hlr⟩ := bank_match_shape hmem
      obtain ⟨_, h10, h18, _, _⟩ := tryBank_some htf
      refine ⟨hall, ?_, by omega⟩
      by_contra hlt
      have hlen : b.length = 10 := by omega
      have hfil := bank10_filtered hmem hlen i.phoneNumbers
      rw [hfil] at hfilt
      cases hfilt

/-- The invariant forbids a string from sitting in both evidence sets. -/
theorem IntelInv_disjoint {i : Intel} (h : IntelInv i) (x : Str)
    (hx : x ∈ i.phoneNumbers ∧ x ∈ i.bankAccounts) : False := by
  obtain ⟨hp, hb⟩ := hx
  obtain ⟨hdig, h11, _⟩ := h.2 x hb
  rcases h.1 x hp with hplus | ⟨_, hlen⟩
  · cases x with
    | nil => cases hplus
    | cons c r =>
      have hc : c = '+' := by simpa using hplus
      have hcd : isDigitC c = true := List.all_eq_true.mp hdig c (List.mem_cons_self c r)
      rw [hc] at hcd
      exact absurd hcd (by decide)
  · rw [hlen] at h11
    omega

/-! The invariant is preserved by every handler step. -/

theorem setPersona_intel (env : Env) (s : Session) :
    (setPersona env s).extracted_intelligence = s.extracted_intelligence := by
  unfold setPersona; split <;> rfl

theorem detectUpdate_intel (s : Session) (t : Str) :
    (detectUpdate s t).extracted_intelligence = s.extracted_intelligence := by
  unfold detectUpdate; split <;> rfl

theorem transition_state_intel (s : Session) :
    (transition_state s).extracted_intelligence = s.extracted_intelligence := by
  unfold transition_state; dsimp only; split_ifs <;> rfl

theorem generateReply_intel (env : Env) (s : Session) (m : Str) :
    (generateReply env s m).1.extracted_intelligence = s.extracted_intelligence := by
  rcases generateReply_fst env s m with h | h | h
  · rw [h]
  · rw [h]; exact setPersona_intel env s
  · rw [h]

theorem mainPhase_intel (env : Env) (s : Session) (m : Str) :
    (mainPhase env s m).1.extracted_intelligence
      = extract_intelligence m s.extracted_intelligence := by
  simp [mainPhase, transition_state_intel, generateReply_intel, detectUpdate_intel]

theorem seedStep_intel (s : Session) (h : HistMsg) :
    (seedStep s h).extracted_intelligence = s.extracted_intelligence := by
  unfold seedStep
  split
  · rfl
  · split
    · dsimp only
      split <;> rfl
    · rfl

theorem seedFold_intel (hist : List HistMsg) (s : Session) :
    (hist.foldl seedStep s).extracted_intelligence = s.extracted_intelligence := by
  induction hist generalizing s with
  | nil => rfl
  | cons a l ih => rw [List.foldl_cons, ih, seedStep_intel]

theorem historyDetectStep_intel (s : Session) (h : HistMsg) :
    (historyDetectStep s h).extracted_intelligence = s.extracted_intelligence := by
  unfold historyDetectStep
  split
  · dsimp only
    rw [detectUpdate_intel]
  · rfl

theorem foldDetect_intel (hist : List HistMsg) (s : Session) :
    (hist.foldl historyDetectStep s).extracted_intelligence
      = s.extracted_intelligence := by
  induction hist generalizing s with
  | nil => rfl
  | cons a l ih => rw [List.foldl_cons, ih, historyDetectStep_intel]

theorem foldIntel_inv (hist : List HistMsg) {s : Session}
    (h : IntelInv s.extracted_intelligence) :
    IntelInv (hist.foldl historyIntelStep s).extracted_intelligence := by
  induction hist generalizing s with
  | nil => exact h
  | cons a l ih =>
    rw [List.foldl_cons]
    refine ih ?_
    unfold historyIntelStep
    split
    · exact IntelInv_extract h a.text
    · exact h

theorem processHistory_intelInv {s : Session} {hist : List HistMsg}
    (h : IntelInv s.extracted_intelligence) :
    IntelInv (processHistory s hist).extracted_intelligence := by
  unfold processHistory
  split
  · exact h
  · dsimp only
    split
    · rw [seedFold_intel, foldDetect_intel]
      exact foldIntel_inv _ h
    · rw [foldDetect_intel]
      exact foldIntel_inv _ h

theorem honeypot_intelInv (env : Env) (req : Request) (s : Session)
    (h : IntelInv s.extracted_intelligence) :
    IntelInv (honeypot env req s).session.extracted_intelligence := by
  unfold honeypot
  split
  · split
    · exact h
    · exact h
  · dsimp only
    split
    · exact processHistory_intelInv h
    · split
      · show IntelInv (mainPhase env (processHistory s req.history)
          (stripWs req.message)).1.extracted_intelligence
        rw [mainPhase_intel]
        exact IntelInv_extract (processHistory_intelInv h) _
      · show IntelInv (mainPhase env (processHistory s req.history)
          (stripWs req.message)).1.extracted_intelligence
        rw [mainPhase_intel]
        exact IntelInv_extract (processHistory_intelInv h) _

/-- Fold a request sequence through the handler from a fresh session. -/
def runSessions (env : Env) (reqs : List Request) : Session :=
  reqs.foldl (fun s r => (honeypot env r s).session) initSession

theorem runSessions_inv (env : Env) (reqs : List Request) :
    IntelInv (runSessions env reqs).extracted_intelligence := by
  suffices hgen : ∀ s : Session, IntelInv s.extracted_intelligence →
      IntelInv ((reqs.foldl (fun s r => (honeypot env r s).session) s)).extracted_intelligence by
    refine hgen initSession ⟨fun p hp => ?_, fun b hb => ?_⟩
    · cases hp
    · cases hb
  induction reqs with
  | nil => intro s h; exact h
  | cons r l ih =>
    intro s h
    rw [List.foldl_cons]
    exact ih _ (honeypot_intelInv env r s h)

/-! ## Claim C3 -/

/-- Counterexample to claim C3's insertion condition as stated: after
extracting from "call 1234567890 now" and then from "acc 991234567890 ok",
the run `991234567890` is added to the bank set even though its last ten
digits equal the digit sequence of the already-recorded phone number
`1234567890` (the code compares the run against each phone's digits and each
phone's last ten digits — not the run's own last ten digits). -/
theorem bank_insertion_condition_counterexample :
    toL "991234567890"
        ∈ (extract_intelligence (toL "acc 991234567890 ok")
            (extract_intelligence (toL "call 1234567890 now") emptyIntel)).bankAccounts
      ∧ toL "991234567890"
          ∉ (extract_intelligence (toL "call 1234567890 now") emptyIntel).bankAccounts
      ∧ toL "1234567890"
          ∈ (extract_intelligence (toL "call 1234567890 now") emptyIntel).phoneNumbers
      ∧ last10 (toL "991234567890") = digitsOf (toL "1234567890") := by decide

/-- Claim C3 (amended): (1) for every session — any request sequence folded
through the handler from a fresh session — no string is ever simultaneously
present in the phone-number and bank-account evidence sets; and (2) a long
digit run enters the bank set only when it passed the code's filter: it is a
bank-pattern match that differs from the digit sequence of every phone
recorded by the end of that extraction AND from each such phone's last ten
digits (`inPhoneDigits`). -/
theorem phone_bank_cross_exclusion :
    (∀ (env : Env) (reqs : List Request) (x : Str),
        ¬ (x ∈ (runSessions env reqs).extracted_intelligence.phoneNumbers
            ∧ x ∈ (runSessions env reqs).extracted_intelligence.bankAccounts))
      ∧ (∀ (i : Intel) (t b : Str),
          b ∈ (extract_intelligence t i).bankAccounts →
            b ∈ i.bankAccounts
              ∨ (b ∈ findallBank t
                  ∧ inPhoneDigits b (extract_intelligence t i).phoneNumbers = false)) := by
  constructor
  · intro env reqs x hx
    exact IntelInv_disjoint (runSessions_inv env reqs) x hx
  · intro i t b hb
    have hb' : b ∈ bankSection (findallBank t)
        (phoneSection (findallPhone t) i.phoneNumbers) i.bankAccounts := hb
    rcases bankSection_added hb' with hold | ⟨hmem, hfilt⟩
    · exact Or.inl hold
    · exact Or.inr ⟨hmem, hfilt⟩

/-- Witness for the amended C3 at a concrete extraction. -/
theorem phone_bank_cross_exclusion_witness :
    toL "991234567890" ∈ emptyIntel.bankAccounts
      ∨ (toL "991234567890" ∈ findallBank (toL "acc 991234567890 ok")
          ∧ inPhoneDigits (toL "991234567890")
              (extract_intelligence (toL "acc 991234567890 ok")
                emptyIntel).phoneNumbers = false) :=
  phone_bank_cross_exclusion.2 emptyIntel (toL "acc 991234567890 ok")
    (toL "991234567890") (by decide)

/-- Witness for the amended C10: an empty request on a fresh session. -/
theorem empty_message_no_state_change_witness :
    (honeypot envNoLlm reqEmpty initSession).reply = GREETING_REPLY
      ∧ (honeypot envNoLlm reqEmpty initSession).session.messages_exchanged
          = initSession.messages_exchanged
      ∧ (honeypot envNoLlm reqEmpty initSession).session.extracted_intelligence
          = initSession.extracted_intelligence
      ∧ (honeypot envNoLlm reqEmpty initSession).session.red_flags = initSession.red_flags
      ∧ (honeypot envNoLlm reqEmpty initSession).session.scam_detected
          = initSession.scam_detected
      ∧ (honeypot envNoLlm reqEmpty initSession).session.conversation
          = initSession.conversation :=
  empty_message_no_state_change envNoLlm reqEmpty initSession rfl rfl (by decide)

end HoneyPot
